import Mathlib

/-!
Shallow embedding of the HTML-to-Ricos conversion core of the
wordpress_to_wix migrator.

Embedded source files:
- src/src/parsers/ricos_schema.py  (node builders and validate_ricos)
- src/src/parsers/ricos_local.py   (convert_html_to_ricos_local)
- src/src/parsers/ricos_parser.py  (convert_html_to_ricos, the nested-list
  preserving converter)
- src/src/migrators/wix_migrator.py (retry policy; the remote-first
  orchestrator itself is modelled from the spec, see RemoteFirst below)

Modelling conventions:
- Python strings are Lean String; machine-level details of unicode are kept
  only as far as the code touches them (the non-breaking space and the
  whitespace set of str.strip).
- BeautifulSoup parsing is not embedded: the converters are embedded from the
  parsed DOM onwards, over the mutual inductive HNode/HForest below.  The
  html.parser backend lowercases tag and attribute names at parse time and
  inserts no implicit tbody/body elements, so concrete inputs are written
  in that already-parsed form.  BeautifulSoup output escaping of and, lt, gt
  entities in str(el) is abstracted away in the serializer.
- A fallible image importer is modelled as a function into ImpResult, which
  distinguishes an importer that raises from one returning a value, because
  ricos_local catches importer exceptions.
- Python dict-shaped nodes are modelled as a tagged inductive; a missing
  optional dict key is identified with its falsy default where the code
  treats the two alike (for example an absent decorations key and an empty
  decoration list).
-/

/-! ### Python string primitives -/

/-- Whitespace set of Python str.strip: ASCII whitespace plus the
non-breaking space, which Python also treats as whitespace. -/
def pySpace (c : Char) : Bool :=
  c == ' ' || c == '\t' || c == '\n' || c == '\r' ||
  c == '\x0b' || c == '\x0c' || c == '\xa0'

/-- Python str.strip on a character list. -/
def pyStripList (l : List Char) : List Char :=
  ((l.dropWhile pySpace).reverse.dropWhile pySpace).reverse

/-- Python str.strip with no arguments. -/
def pyStrip (s : String) : String := ⟨pyStripList s.data⟩

/-- normalize_ws from ricos_local: replace the non-breaking space by a
regular space. -/
def normalize_ws (s : String) : String :=
  ⟨s.data.map (fun c => if c == '\xa0' then ' ' else c)⟩

/-- Python str.lower on one character (ASCII case, which covers tag names). -/
def pyLowerChar (c : Char) : Char :=
  if 'A' ≤ c ∧ c ≤ 'Z' then Char.ofNat (c.toNat + 32) else c

/-- Python str.lower (ASCII range; tag names are ASCII). -/
def pyLower (s : String) : String := ⟨s.data.map pyLowerChar⟩

/-- Python sep.join, as used by BeautifulSoup get_text. -/
def pyJoin (sep : String) : List String → String
  | [] => ""
  | [s] => s
  | s :: rest => s ++ sep ++ pyJoin sep rest

/-- Character membership in a character list. -/
def chHas (c : Char) : List Char → Bool
  | [] => false
  | d :: t => c == d || chHas c t

/-- Character membership in a string. -/
def strHas (c : Char) (s : String) : Bool := chHas c s.data

/-- Sublist (contiguous substring) test on character lists. -/
def subList (needle : List Char) : List Char → Bool
  | [] => needle.isEmpty
  | c :: t => needle.isPrefixOf (c :: t) || subList needle t

/-- Substring test on strings. -/
def strContains (needle hay : String) : Bool := subList needle.data hay.data

/-! ### The parsed DOM

HNode is a parsed HTML node: either a NavigableString or a Tag with a name,
an attribute list and children.  A mutual forest type is used instead of
List HNode so that all recursions are structural and reduce in the kernel. -/

mutual
inductive HNode where
  | text : String → HNode
  | tag : String → List (String × String) → HForest → HNode

inductive HForest where
  | nil : HForest
  | cons : HNode → HForest → HForest
end

/-- Build a forest from a list, for writing concrete documents. -/
def HForest.ofList : List HNode → HForest
  | [] => .nil
  | n :: t => .cons n (HForest.ofList t)

/-- Tag.get on the attribute dict: first binding of the key. -/
def attrGet (attrs : List (String × String)) (k : String) : Option String :=
  match attrs with
  | [] => none
  | (k0, v) :: rest => if k0 == k then some v else attrGet rest k

mutual
/-- All NavigableStrings of a forest in document order
(BeautifulSoup _all_strings). -/
def collectStringsF : HForest → List String
  | .nil => []
  | .cons n t => collectStringsN n ++ collectStringsF t

/-- All NavigableStrings below one node in document order. -/
def collectStringsN : HNode → List String
  | .text s => [s]
  | .tag _ _ cs => collectStringsF cs
end

/-- element.get_text(sep) over the children of an element. -/
def getTextSep (sep : String) (cs : HForest) : String :=
  pyJoin sep (collectStringsF cs)

/-- element.get_text(sep, strip=True): each string stripped, empties
dropped, remainder joined by the separator. -/
def getTextStrip (sep : String) (cs : HForest) : String :=
  pyJoin sep (((collectStringsF cs).map pyStrip).filter (fun s => s != ""))

mutual
/-- element.find(names) over a forest: first matching descendant tag in
document order (pre-order).  Tag names are matched verbatim because the
parser stores them lowercased. -/
def findTagF (names : List String) : HForest → Option HNode
  | .nil => none
  | .cons n t =>
    match findTagN names n with
    | some r => some r
    | none => findTagF names t

/-- find within a single node: the node itself, then its subtree. -/
def findTagN (names : List String) : HNode → Option HNode
  | .text _ => none
  | .tag nm attrs cs =>
    if names.contains nm then some (.tag nm attrs cs)
    else findTagF names cs
end

/-- element.find_all(names, recursive=False): direct child tags whose name
is in the set, in order. -/
def directChildrenNamed (names : List String) : HForest → List HNode
  | .nil => []
  | .cons (.text _) t => directChildrenNamed names t
  | .cons (.tag nm attrs cs) t =>
    if names.contains nm then
      .tag nm attrs cs :: directChildrenNamed names t
    else directChildrenNamed names t

/-- Void elements that BeautifulSoup serializes self-closed. -/
def voidTags : List String :=
  ["area", "base", "br", "col", "embed", "hr", "img", "input",
   "link", "meta", "param", "source", "track", "wbr"]

/-- One character under BeautifulSoup s minimal output formatter:
the XML special characters are replaced by entity references. -/
def escChar (d : Char) : List Char :=
  if d == '&' then "&amp;".data
  else if d == '<' then "&lt;".data
  else if d == '>' then "&gt;".data
  else [d]

/-- Minimal-formatter substitution over a character list. -/
def escList : List Char → List Char
  | [] => []
  | d :: t => escChar d ++ escList t

/-- EntitySubstitution.substitute_xml, applied by str(el) to every
NavigableString and attribute value. -/
def pyEscape (s : String) : String := ⟨escList s.data⟩

/-- Serialized attribute list, as in str(el); values are entity-escaped by
the minimal formatter (quote-character choice abstracted to double quotes). -/
def serializeAttrs : List (String × String) → String
  | [] => ""
  | (k, v) :: rest => " " ++ k ++ "=\"" ++ pyEscape v ++ "\"" ++ serializeAttrs rest

mutual
/-- str(el) for a node: markup serialization with the minimal formatter s
entity escaping on text. -/
def serializeN : HNode → String
  | .text s => pyEscape s
  | .tag nm attrs cs =>
    if voidTags.contains nm then "<" ++ nm ++ serializeAttrs attrs ++ "/>"
    else
      "<" ++ nm ++ serializeAttrs attrs ++ ">" ++ serializeF cs ++
      "</" ++ nm ++ ">"

/-- str for a forest: concatenation of the serialized nodes. -/
def serializeF : HForest → String
  | .nil => ""
  | .cons n t => serializeN n ++ serializeF t
end

mutual
/-- soup.find_all for script and style followed by decompose: remove every
script and style subtree at any depth. -/
def stripScriptsF : HForest → HForest
  | .nil => .nil
  | .cons n t =>
    match stripScriptsN n with
    | some n2 => .cons n2 (stripScriptsF t)
    | none => stripScriptsF t

/-- Strip a single node; none when the node itself is a script or style tag. -/
def stripScriptsN : HNode → Option HNode
  | .text s => some (.text s)
  | .tag nm attrs cs =>
    if nm == "script" || nm == "style" then none
    else some (.tag nm attrs (stripScriptsF cs))
end

/-! ### ricos_schema.py: node shapes and builders -/

/-- Decoration dict: a type tag plus, for LINK, a data dict holding the url.
No other decoration built by ricos_local carries data. -/
structure RDeco where
  type : String
  url : Option String
deriving DecidableEq, Repr

/-- deco builder from ricos_schema. -/
def deco (t : String) (url : Option String) : RDeco := ⟨t, url⟩

mutual
/-- Ricos node dicts produced by ricos_schema builders.  A heading level is
Option Int so that the synthetic non-integer levels that validate_ricos
defends against are representable (none stands for a non-int level).
Table rows keep the cell text grid; the constant per-cell paragraph
wrapping of table_node_simple is implicit in the constructor. -/
inductive RNode where
  | text (text : String) (decorations : List RDeco)
  | paragraph (nodes : RNodes)
  | headingN (level : Option Int) (nodes : RNodes)
  | blockquoteN (nodes : RNodes)
  | dividerN
  | codeBlockN (nodes : RNodes)
  | bulleted (nodes : RNodes)
  | ordered (nodes : RNodes)
  | listItemN (nodes : RNodes)
  | imageN (mediaId : String) (caption : Option String)
  | htmlN (html : String)
  | tableN (rows : List (List String)) (headerRows : Int)

/-- Node sequence (mutual companion of RNode, kernel-reducible). -/
inductive RNodes where
  | nil
  | cons (n : RNode) (t : RNodes)
end

/-- Build a node sequence from a list. -/
def RNodes.ofList : List RNode → RNodes
  | [] => .nil
  | n :: t => .cons n (RNodes.ofList t)

/-- View a node sequence as a list. -/
def RNodes.toList : RNodes → List RNode
  | .nil => []
  | .cons n t => n :: RNodes.toList t

/-- The document root object. -/
structure RicosDoc where
  nodes : RNodes

/-- doc builder from ricos_schema. -/
def doc (nodes : List RNode) : RicosDoc := ⟨RNodes.ofList nodes⟩

/-- text_node builder: text with an optional decoration list (an absent
decorations key is identified with the empty list). -/
def text_node (text : String) (decorations : List RDeco) : RNode :=
  RNode.text text decorations

/-- paragraph builder. -/
def paragraph (text_nodes : List RNode) : RNode :=
  RNode.paragraph (RNodes.ofList text_nodes)

/-- heading builder with its defensive clamp
max(1, min(6, int(level or 1))). -/
def heading (level : Int) (text_nodes : List RNode) : RNode :=
  RNode.headingN (some (max 1 (min 6 (if level == 0 then 1 else level))))
    (RNodes.ofList text_nodes)

/-- blockquote builder. -/
def blockquote (nodes : List RNode) : RNode :=
  RNode.blockquoteN (RNodes.ofList nodes)

/-- divider builder. -/
def divider : RNode := RNode.dividerN

/-- code_block builder: one undecorated text node. -/
def code_block (text : String) : RNode :=
  RNode.codeBlockN (RNodes.ofList [text_node text []])

/-- list_container builder. -/
def list_container (ordered : Bool) (items : List RNode) : RNode :=
  if ordered then RNode.ordered (RNodes.ofList items)
  else RNode.bulleted (RNodes.ofList items)

/-- list_item builder. -/
def list_item (nodes : List RNode) : RNode :=
  RNode.listItemN (RNodes.ofList nodes)

/-- image_node_wix_media builder: the caption key is only set when the
caption is truthy. -/
def image_node_wix_media (media_id : String) (caption : Option String) : RNode :=
  RNode.imageN media_id
    (match caption with
     | some c => if c == "" then none else some c
     | none => none)

/-- html_block builder. -/
def html_block (raw_html : String) : RNode := RNode.htmlN raw_html

/-- table_node_simple builder with its max(0, int(header_rows or 0)) clamp. -/
def table_node_simple (rows : List (List String)) (header_rows : Int) : RNode :=
  RNode.tableN rows (max 0 header_rows)

/-- One step of validate_ricos on a top-level node: clamp an invalid
heading level to 1 (a none level models a non-int level) and wrap a stray
TEXT node in a paragraph; all other nodes pass through. -/
def validate_fix (n : RNode) : RNode :=
  match n with
  | .headingN lvl ns =>
    .headingN
      (match lvl with
       | some v => if 1 ≤ v ∧ v ≤ 6 then some v else some 1
       | none => some 1) ns
  | .text s d => .paragraph (.cons (.text s d) .nil)
  | other => other

/-- Map over a node sequence. -/
def mapNodes (f : RNode → RNode) : RNodes → RNodes
  | .nil => .nil
  | .cons n t => .cons (f n) (mapNodes f t)

/-- validate_ricos from ricos_schema: normalize every top-level node.  The
isinstance guards of the Python function (a non-list nodes value, a
non-dict entry) are unrepresentable in the typed embedding. -/
def validate_ricos (document : RicosDoc) : RicosDoc :=
  ⟨mapNodes validate_fix document.nodes⟩

/-! ### ricos_local.py: convert_html_to_ricos_local -/

/-- Result of one image importer call: the importer may raise or return an
optional media id.  ricos_local catches the raise and treats it as none. -/
inductive ImpResult where
  | raises
  | val (r : Option String)

/-- The optional image_importer collaborator. -/
abbrev Importer : Type := Option (String → ImpResult)

/-- flush_text from build_inline_from_nodes: normalize, then emit a text
node carrying the active decorations unless the stripped text is empty.
The emitted text is the normalized, unstripped string. -/
def flush_text (active : List RDeco) (s : String) : List RNode :=
  let s2 := normalize_ws s
  if pyStrip s2 != "" then [text_node s2 active] else []

/-- Decoration extension step of build_inline_from_nodes: the copied active
list with the decoration for this tag name appended (a plain append with no
duplicate check).  Names are already lowercased by the caller. -/
def extendActive (active : List RDeco) (name : String)
    (attrs : List (String × String)) : List RDeco :=
  if name == "strong" || name == "b" then active ++ [deco "BOLD" none]
  else if name == "em" || name == "i" then active ++ [deco "ITALIC" none]
  else if name == "u" then active ++ [deco "UNDERLINE" none]
  else if name == "s" || name == "strike" || name == "del" then
    active ++ [deco "STRIKETHROUGH" none]
  else if name == "code" then active ++ [deco "CODE" none]
  else if name == "a" then
    match attrGet attrs "href" with
    | some href => if href != "" then active ++ [deco "LINK" (some href)] else active
    | none => active
  else active

/-- The img branch of build_inline_from_nodes: alt falls back to the word
imagem when absent or empty, src falls back to the empty string. -/
def imgAlt (attrs : List (String × String)) : String :=
  match attrGet attrs "alt" with
  | some a => if a == "" then "imagem" else a
  | none => "imagem"

/-- src attribute with empty-string fallback. -/
def imgSrc (attrs : List (String × String)) : String :=
  match attrGet attrs "src" with
  | some s => s
  | none => ""

/-- The textual image placeholder of the img case, stripped and run
through flush_text under the callers active set. -/
def imgPlaceholder (attrs : List (String × String)) (active : List RDeco) :
    List RNode :=
  flush_text active
    (pyStrip ("[Imagem: " ++ imgAlt attrs ++ "] " ++ imgSrc attrs))

/-- The img case of the loop: a resolved import becomes a deferred image
block, any other outcome (no importer, no src, raising importer, importer
returning none) becomes the textual placeholder run.  The unused copied
new_active of the Python loop is dropped here because the img branch never
reads it. -/
def imgBranch (attrs : List (String × String)) (active : List RDeco) :
    Importer → List RNode × List RNode
  | some f =>
    if imgSrc attrs != "" then
      match (match f (imgSrc attrs) with | .raises => none | .val r => r) with
      | some mid => ([], [image_node_wix_media mid (some (imgAlt attrs))])
      | none => (imgPlaceholder attrs active, [])
    else (imgPlaceholder attrs active, [])
  | none => (imgPlaceholder attrs active, [])

mutual
/-- build_inline_from_nodes from ricos_local: walk the children, returning
the inline text runs and, separately, the image blocks the loop appends to
the deferred_blocks sink (returned here instead of mutated in place; the
in-place view is embedded separately as buildInlineStore). -/
def build_inline_from_nodes (imp : Importer) :
    HForest → List RDeco → (List RNode × List RNode)
  | .nil, _ => ([], [])
  | .cons c rest, active =>
    let cr := build_inline_child imp c active
    let rr := build_inline_from_nodes imp rest active
    (cr.1 ++ rr.1, cr.2 ++ rr.2)

/-- Loop body of build_inline_from_nodes for one child. -/
def build_inline_child (imp : Importer) :
    HNode → List RDeco → (List RNode × List RNode)
  | .text s, active => (flush_text active s, [])
  | .tag nm0 attrs cs, active =>
    let name := pyLower nm0
    if name == "br" then ([text_node "\n" active], [])
    else if name == "img" then imgBranch attrs active imp
    else build_inline_from_nodes imp cs (extendActive active name attrs)
end

/-- Crude header detection of the plugin table mode: 1 when the first tr
found anywhere under the table contains a th anywhere below it, else 0. -/
def tableHeaderRows (cs : HForest) : Int :=
  match findTagF ["tr"] cs with
  | some (.tag _ _ frcs) => if (findTagF ["th"] frcs).isSome then 1 else 0
  | _ => 0

/-- Cell texts of one tr: direct td and th children, each as its
whitespace-stripped joined text. -/
def rowCells (tr : HNode) : List String :=
  match tr with
  | .tag _ _ trcs =>
    (directChildrenNamed ["td", "th"] trcs).map
      (fun cell =>
        match cell with
        | .tag _ _ ccs => getTextStrip " " ccs
        | .text s => pyStrip s)
  | .text _ => []

/-- Rows of the plugin table mode: direct tr children, keeping only rows
with at least one cell. -/
def tableRows (cs : HForest) : List (List String) :=
  ((directChildrenNamed ["tr"] cs).map rowCells).filter (fun r => !r.isEmpty)

/-- Text-paragraph fallback used by the table family, iframe-less unknown
blocks and unknown tags: the whitespace-joined stripped text, when any. -/
def blockTextFallback (cs : HForest) : List RNode :=
  let txt := getTextStrip " " cs
  if txt != "" then [paragraph [text_node txt []]] else []

/-- Image-within-figure-or-table short-circuit of handle_block: only with
an importer, on the first img descendant with a nonempty src whose import
succeeds (a raising importer counts as none).  The alt here is the raw
attribute (no default word), matching the source. -/
def tableImgHit (imp : Importer) (cs : HForest) : Option RNode :=
  match imp, findTagF ["img"] cs with
  | some f, some (.tag _ iattrs _) =>
    if imgSrc iattrs != "" then
      match (match f (imgSrc iattrs) with | .raises => none | .val r => r) with
      | some mid => some (image_node_wix_media mid (attrGet iattrs "alt"))
      | none => none
    else none
  | _, _ => none

/-- The three table modes of handle_block for a table element: html wraps
the serialized markup, plugin builds the simple table node when any row
has cells, and anything else (or an empty plugin table) falls back to a
text paragraph. -/
def tableModes (table_mode : String) (el : HNode) (cs : HForest) : List RNode :=
  if table_mode == "html" then [html_block (serializeN el)]
  else if table_mode == "plugin" then
    let rows := tableRows cs
    if !rows.isEmpty then [table_node_simple rows (tableHeaderRows cs)]
    else blockTextFallback cs
  else blockTextFallback cs

/-- The table-family branch of handle_block (table, thead, tbody, tr, td,
th, figure, figcaption). -/
def tableBranch (imp : Importer) (table_mode : String) (name : String)
    (el : HNode) (cs : HForest) : List RNode :=
  match tableImgHit imp cs with
  | some imgNode => [imgNode]
  | none =>
    if name == "table" then tableModes table_mode el cs
    else blockTextFallback cs

/-- List items of the ul and ol branch: each direct li child with nonempty
inline runs becomes a LIST_ITEM of one paragraph (the fresh deferred sink
passed for each li is discarded in the source). -/
def listItems (imp : Importer) (lis : List HNode) : List RNode :=
  (lis.map
    (fun li =>
      match li with
      | .tag _ _ lics =>
        let r := build_inline_from_nodes imp lics []
        if !r.1.isEmpty then [list_item [paragraph r.1]] else []
      | .text _ => [])).flatten

/-- The pre branch text: the first code descendant joined by newlines, or
the pre text itself. -/
def preText (cs : HForest) : String :=
  match findTagF ["code"] cs with
  | some (.tag _ _ ccs) => getTextSep "\n" ccs
  | _ => getTextSep "\n" cs

/-- The iframe branch: an Embed-prefixed link paragraph when a src exists. -/
def iframeBranch (attrs : List (String × String)) : List RNode :=
  let src := match attrGet attrs "src" with | some s => s | none => ""
  if src != "" then [paragraph [text_node ("[Embed] " ++ src) []]] else []

/-- handle_block from ricos_local: map one block-level element to the nodes
it appends.  A bare string never reaches handle_block (the top-level loop
only passes tags), so the text case returns nothing. -/
def handle_block (imp : Importer) (table_mode : String) (el : HNode) :
    List RNode :=
  match el with
  | .text _ => []
  | .tag nm0 attrs cs =>
    let name := pyLower nm0
    if name == "p" || name == "span" || name == "div" || name == "section" then
      let r := build_inline_from_nodes imp cs []
      (if !r.1.isEmpty then [paragraph r.1] else []) ++ r.2
    else if name == "h1" || name == "h2" || name == "h3" || name == "h4" ||
        name == "h5" || name == "h6" then
      let lvl : Int :=
        if name == "h1" then 1 else if name == "h2" then 2
        else if name == "h3" then 3 else if name == "h4" then 4
        else if name == "h5" then 5 else 6
      let r := build_inline_from_nodes imp cs []
      [heading lvl r.1]
    else if name == "ul" || name == "ol" then
      let items := listItems imp (directChildrenNamed ["li"] cs)
      if !items.isEmpty then [list_container (name == "ol") items] else []
    else if name == "blockquote" then
      let r := build_inline_from_nodes imp cs []
      if !r.1.isEmpty then [blockquote [paragraph r.1]] else []
    else if name == "hr" then [divider]
    else if name == "pre" then [code_block (normalize_ws (preText cs))]
    else if name == "table" || name == "thead" || name == "tbody" ||
        name == "tr" || name == "td" || name == "th" ||
        name == "figure" || name == "figcaption" then
      tableBranch imp table_mode name el cs
    else if name == "iframe" then iframeBranch attrs
    else blockTextFallback cs

/-- is_inline_tag from the top-level coalescer. -/
def is_inline_tag (t : String) : Bool :=
  if t == "" then false
  else
    ["span", "a", "strong", "b", "em", "i", "u", "s", "strike", "del",
     "code", "img", "br"].contains (pyLower t)

/-- flush_inline_run: wrap the buffered inline children in a synthetic
paragraph (plus deferred image blocks); a flush of an empty buffer is a
no-op. -/
def flush_inline_run (imp : Importer) (run : List HNode) : List RNode :=
  match run with
  | [] => []
  | _ =>
    let r := build_inline_from_nodes imp (HForest.ofList run) []
    (if !r.1.isEmpty then [paragraph r.1] else []) ++ r.2

/-- Top-level coalescing loop of convert_html_to_ricos_local: buffer
non-blank strings and inline tags, flush on whitespace-only strings and
before every block element, and flush once more at the end. -/
def convertChildren (imp : Importer) (table_mode : String) :
    HForest → List HNode → List RNode
  | .nil, run => flush_inline_run imp run
  | .cons (.text s) t, run =>
    if pyStrip s != "" then
      convertChildren imp table_mode t (run ++ [.text s])
    else
      flush_inline_run imp run ++ convertChildren imp table_mode t []
  | .cons (.tag nm attrs cs) t, run =>
    if is_inline_tag nm then
      convertChildren imp table_mode t (run ++ [.tag nm attrs cs])
    else
      flush_inline_run imp run ++ handle_block imp table_mode (.tag nm attrs cs) ++
      convertChildren imp table_mode t []

/-- convert_html_to_ricos_local from ricos_local.py, embedded from the
parsed DOM onwards (the caption-shortcode regex strip and BeautifulSoup
parsing happen at string level; parsing is total, and a None or empty html
argument parses to the empty forest, modelled by Option).  Scripts and
styles are removed first; the result passes through validate_ricos. -/
def convert_html_to_ricos_local (html : Option HForest) (imp : Importer)
    (table_mode : String) : RicosDoc :=
  let dom :=
    match html with
    | some d => d
    | none => HForest.nil
  let cleaned := stripScriptsF dom
  validate_ricos (doc (convertChildren imp table_mode cleaned []))

/-! ### Heap view of build_inline_from_nodes

Python lists are mutable heap objects, and build_inline_from_nodes receives
the callers active decoration list by reference.  To state that the function
never mutates that list, the decoration lists are re-embedded here with the
heap made explicit: a store of cells addressed by allocation index.
active.copy() allocates a fresh cell and each Python append writes one cell.
The text runs and the deferred image blocks are returned functionally as in
the pure embedding (only their order is observable). -/

/-- The store of decoration-list cells. -/
structure DecoStore where
  cells : List (List RDeco)

/-- Read a cell (out-of-range reads never happen on the used addresses). -/
def DecoStore.read (st : DecoStore) (a : Nat) : List RDeco :=
  (st.cells.get? a).getD []

/-- active.copy(): allocate a fresh cell holding a copy, returning its
address. -/
def DecoStore.alloc (st : DecoStore) (v : List RDeco) : DecoStore × Nat :=
  (⟨st.cells ++ [v]⟩, st.cells.length)

/-- list.append on the cell at one address. -/
def DecoStore.appendAt (st : DecoStore) (a : Nat) (d : RDeco) : DecoStore :=
  ⟨st.cells.set a (st.read a ++ [d])⟩

/-- Decoration extension on the freshly copied cell, one appendAt per
Python append (the if chain of build_inline_from_nodes). -/
def extendActiveStore (st : DecoStore) (na : Nat) (name : String)
    (attrs : List (String × String)) : DecoStore :=
  if name == "strong" || name == "b" then st.appendAt na (deco "BOLD" none)
  else if name == "em" || name == "i" then st.appendAt na (deco "ITALIC" none)
  else if name == "u" then st.appendAt na (deco "UNDERLINE" none)
  else if name == "s" || name == "strike" || name == "del" then
    st.appendAt na (deco "STRIKETHROUGH" none)
  else if name == "code" then st.appendAt na (deco "CODE" none)
  else if name == "a" then
    match attrGet attrs "href" with
    | some href =>
      if href != "" then st.appendAt na (deco "LINK" (some href)) else st
    | none => st
  else st

/-- The img case in the heap view: the store is the one after the copied
and extended new_active cell, and the placeholder run reads the callers
cell, as in the pure imgBranch. -/
def imgBranchStore (attrs : List (String × String)) (st2 : DecoStore)
    (a : Nat) : Importer → (DecoStore × List RNode × List RNode)
  | some f =>
    if imgSrc attrs != "" then
      match (match f (imgSrc attrs) with | .raises => none | .val r => r) with
      | some mid =>
        (st2, [], [image_node_wix_media mid (some (imgAlt attrs))])
      | none => (st2, imgPlaceholder attrs (st2.read a), [])
    else (st2, imgPlaceholder attrs (st2.read a), [])
  | none => (st2, imgPlaceholder attrs (st2.read a), [])

mutual
/-- build_inline_from_nodes with the heap explicit: the active set is the
address of a store cell. -/
def buildInlineStoreF (imp : Importer) :
    HForest → Nat → DecoStore → (DecoStore × List RNode × List RNode)
  | .nil, _, st => (st, [], [])
  | .cons c rest, a, st =>
    let r1 := buildInlineStoreN imp c a st
    let r2 := buildInlineStoreF imp rest a r1.1
    (r2.1, r1.2.1 ++ r2.2.1, r1.2.2 ++ r2.2.2)

/-- Loop body of the heap view for one child. -/
def buildInlineStoreN (imp : Importer) :
    HNode → Nat → DecoStore → (DecoStore × List RNode × List RNode)
  | .text s, a, st => (st, flush_text (st.read a) s, [])
  | .tag nm0 attrs cs, a, st =>
    let name := pyLower nm0
    if name == "br" then (st, [text_node "\n" (st.read a)], [])
    else
      let r1 := st.alloc (st.read a)
      let st2 := extendActiveStore r1.1 r1.2 name attrs
      if name == "img" then imgBranchStore attrs st2 a imp
      else buildInlineStoreF imp cs r1.2 st2
end

/-! ### The spec-side table header rule (for comparison with the code)

The spec states the header rule as: a row is a header row exactly when the
first row has a th as its FIRST cell.  This definition follows the spec
words (not the code) and exists only to be compared against
tableHeaderRows, which the code computes. -/

/-- Header-row count as worded by the spec: 1 exactly when the first cell
of the first row is a th. -/
def specFirstCellHeaderRows (cs : HForest) : Int :=
  match findTagF ["tr"] cs with
  | some (.tag _ _ frcs) =>
    match directChildrenNamed ["td", "th"] frcs with
    | .tag "th" _ _ :: _ => 1
    | _ => 0
  | _ => 0

/-! ### Remote-first orchestrator

Modelled from the spec: no remote-first orchestrator exists under src (the
repository only ships the retry helper with_retries in wix_migrator.py);
section 4.8 of the spec defines it.  The remote collaborator is a function
from the attempt number to an outcome; a transport error is retried up to
the bounded attempt budget, an unexpected response shape falls back
immediately, and exhausted retries fall back to the local converter. -/

/-- Outcome of one remote conversion attempt. -/
inductive RemoteOutcome where
  | ok (d : RicosDoc)
  | malformed
  | transportError

/-- Modelled from the spec: the bounded retry loop of the orchestrator.
Returns none when the remote path yields no usable document. -/
def remoteAttempts (remote : Nat → RemoteOutcome) : Nat → Nat → Option RicosDoc
  | _, 0 => none
  | k, Nat.succ budget =>
    match remote k with
    | .ok d => some d
    | .malformed => none
    | .transportError => remoteAttempts remote (k + 1) budget

/-- Modelled from the spec: RemoteFirstOrchestrator.convert.  When remote
conversion is disabled or the remote path fails, the local converter runs;
a remote failure is never re-raised. -/
def remoteFirstConvert (enabled : Bool) (remote : Nat → RemoteOutcome)
    (maxAttempts : Nat) (html : Option HForest) (imp : Importer)
    (table_mode : String) : RicosDoc :=
  if enabled then
    match remoteAttempts remote 0 maxAttempts with
    | some d => d
    | none => convert_html_to_ricos_local html imp table_mode
  else convert_html_to_ricos_local html imp table_mode

/-! ### ricos_parser.py: convert_html_to_ricos

The second converter of the repository (the one exported by
src/parsers/init and used by migration_tool).  Its node dicts differ from
the ricos_schema shapes (textData.decorations, headingData, listItemData),
so it gets its own node type.  The random node id of generate_ricos_id and
the fixed containerData payloads are constants not observed by any claim
and are left out of the node shapes; the unused embed_strategy parameter is
dropped. -/

/-- Python str.upper on one character (ASCII). -/
def pyUpperChar (c : Char) : Char :=
  if 'a' ≤ c ∧ c ≤ 'z' then Char.ofNat (c.toNat - 32) else c

/-- Python str.upper (ASCII range). -/
def pyUpper (s : String) : String := ⟨s.data.map pyUpperChar⟩

/-- Last-binding lookup (Python dict: later assignments overwrite). -/
def dictGet (l : List (String × String)) (k : String) : Option String :=
  match l with
  | [] => none
  | (k0, v) :: rest =>
    match dictGet rest k with
    | some r => some r
    | none => if k0 == k then some v else none

/-- Split a character list at the first colon (str.split with maxsplit 1). -/
def splitColonAux : List Char → Option (List Char × List Char)
  | [] => none
  | c :: t =>
    if c == ':' then some ([], t)
    else
      match splitColonAux t with
      | some (a, b) => some (c :: a, b)
      | none => none

/-- Split a character list on semicolons (str.split). -/
def splitSemis : List Char → List (List Char)
  | [] => [[]]
  | c :: t =>
    let r := splitSemis t
    if c == ';' then [] :: r
    else
      match r with
      | h :: t2 => (c :: h) :: t2
      | [] => [[c]]

/-- _get_inline_styles: parse the style attribute into stripped
property-value pairs (pairs without a colon are dropped). -/
def get_inline_styles (attrs : List (String × String)) : List (String × String) :=
  match attrGet attrs "style" with
  | none => []
  | some s =>
    (splitSemis s.data).filterMap
      (fun p =>
        match splitColonAux p with
        | some (a, b) => some (pyStrip ⟨a⟩, pyStrip ⟨b⟩)
        | none => none)

/-- _get_text_alignment: the text-align style (first binding, as the regex
search finds the first occurrence; the regex is modelled as an exact
lowercase keyword match after stripping) or the deprecated align attribute,
uppercased, when it is one of the four keywords. -/
def get_text_alignment (attrs : List (String × String)) : Option String :=
  let fromStyle :=
    match attrGet (get_inline_styles attrs) "text-align" with
    | some v =>
      if v == "center" || v == "justify" || v == "left" || v == "right"
      then some (pyUpper v) else none
    | none => none
  match fromStyle with
  | some a => some a
  | none =>
    match attrGet attrs "align" with
    | some v =>
      let u := pyUpper v
      if u == "CENTER" || u == "JUSTIFY" || u == "LEFT" || u == "RIGHT"
      then some u else none
    | none => none

/-- Python str.replace of the px substring by nothing. -/
def removePx : List Char → List Char
  | 'p' :: 'x' :: t => removePx t
  | c :: t => c :: removePx t
  | [] => []

/-- Python float() acceptance on the common decimal forms (sign, digits,
one optional dot; exponents and inf/nan are not modelled). -/
def pyFloatOk (s : String) : Bool :=
  let l := pyStripList s.data
  let l2 :=
    match l with
    | c :: t => if c == '+' || c == '-' then t else c :: t
    | [] => []
  let ds := l2.takeWhile Char.isDigit
  let rest := l2.dropWhile Char.isDigit
  match rest with
  | [] => !ds.isEmpty
  | c :: t => c == '.' && t.all Char.isDigit && (!ds.isEmpty || !t.isEmpty)

/-- Digits to a natural number. -/
def digitsToNat (l : List Char) : Nat :=
  l.foldl (fun a c => a * 10 + (c.toNat - 48)) 0

/-- Python int() on a string: optional sign and digits, whitespace
stripped; anything else raises, modelled as none. -/
def pyIntParse (s : String) : Option Int :=
  let l := pyStripList s.data
  match l with
  | '-' :: t =>
    if !t.isEmpty && t.all Char.isDigit then some (-(digitsToNat t : Int)) else none
  | '+' :: t =>
    if !t.isEmpty && t.all Char.isDigit then some (digitsToNat t : Int) else none
  | _ =>
    if !l.isEmpty && l.all Char.isDigit then some (digitsToNat l : Int) else none

/-- Decorations of the ricos_parser schema (under textData.decorations).
COLOR keeps which colorData key was set; FONT_SIZE keeps the px-stripped
numeral text of the parsed float. -/
inductive PDeco where
  | bold
  | italic
  | underline
  | link (url : String)
  | colorFG (v : String)
  | colorBG (v : String)
  | fontSizePx (v : String)
deriving DecidableEq, Repr

/-- A TEXT node of the ricos_parser schema: text plus decorations. -/
structure PText where
  text : String
  decorations : List PDeco
deriving DecidableEq, Repr

/-- Style payload of a paragraph or heading node: textAlignment and
lineHeight live under textStyle; paddingBottom (the paragraph_spacing_px
count, rendered with a constant px suffix) and paddingTop under style. -/
structure PParaStyle where
  textAlignment : Option String
  lineHeight : Option String
  paddingBottom : Option Int
  paddingTop : Option String
deriving DecidableEq, Repr

/-- Style decorations applied to a direct string child from the parent
inline styles: UNDERLINE, COLOR foreground, COLOR background, FONT_SIZE,
in source order. -/
def baseDecos (styles : List (String × String)) : List PDeco :=
  (match dictGet styles "text-decoration" with
   | some v => if strContains "underline" v then [PDeco.underline] else []
   | none => []) ++
  (match dictGet styles "color" with
   | some v => [PDeco.colorFG v]
   | none => []) ++
  (match dictGet styles "background-color" with
   | some v => [PDeco.colorBG v]
   | none => []) ++
  (match dictGet styles "font-size" with
   | some v =>
     let v2 : String := ⟨removePx v.data⟩
     if pyFloatOk v2 then [PDeco.fontSizePx v2] else []
   | none => [])

mutual
/-- _get_text_nodes_with_decorations over the children of an element whose
parsed inline styles are given. -/
def getTextNodesP (styles : List (String × String)) : HForest → List PText
  | .nil => []
  | .cons c rest => getTextNodeChild styles c ++ getTextNodesP styles rest

/-- One child of _get_text_nodes_with_decorations. -/
def getTextNodeChild (styles : List (String × String)) : HNode → List PText
  | .text s =>
    if pyStrip s != "" then [⟨s, baseDecos styles⟩] else []
  | .tag nm attrs cs =>
    if nm == "strong" || nm == "b" then
      (getTextNodesP (get_inline_styles attrs) cs).map
        (fun t => ⟨t.text, t.decorations ++ [PDeco.bold]⟩)
    else if nm == "em" || nm == "i" then
      (getTextNodesP (get_inline_styles attrs) cs).map
        (fun t => ⟨t.text, t.decorations ++ [PDeco.italic]⟩)
    else if nm == "u" then
      (getTextNodesP (get_inline_styles attrs) cs).map
        (fun t => ⟨t.text, t.decorations ++ [PDeco.underline]⟩)
    else if nm == "a" then
      match attrGet attrs "href" with
      | some href =>
        if href != "" then
          (getTextNodesP (get_inline_styles attrs) cs).map
            (fun t => ⟨t.text, t.decorations ++ [PDeco.link href]⟩)
        else getTextNodesP (get_inline_styles attrs) cs
      | none => getTextNodesP (get_inline_styles attrs) cs
    else if nm == "span" then
      getTextNodesP (get_inline_styles attrs) cs
    else if nm == "br" then []
    else
      if getTextStrip "" cs != "" then [⟨getTextSep "" cs, []⟩] else []
end

mutual
/-- The node dicts built by _convert_html_element_to_ricos_nodes. -/
inductive PNode where
  | paragraphP (runs : List PText) (style : PParaStyle)
  | headingP (level : Nat) (runs : List PText) (style : PParaStyle)
  | lineBreakP
  | imageP (mediaId : String) (altText : String) (width : Option Int) (height : Option Int)
  | bulletedP (items : PNodes)
  | orderedP (items : PNodes)
  | listItemP (nodes : PNodes)
  | blockquoteP (nodes : PNodes)
  | htmlP (html : String)

/-- Node sequence companion of PNode. -/
inductive PNodes where
  | nil
  | cons (n : PNode) (t : PNodes)
end

/-- Build a PNodes sequence from a list. -/
def PNodes.ofList : List PNode → PNodes
  | [] => .nil
  | n :: t => .cons n (PNodes.ofList t)

/-- View a PNodes sequence as a list. -/
def PNodes.toList : PNodes → List PNode
  | .nil => []
  | .cons n t => n :: PNodes.toList t

/-- The image importer collaborator of ricos_parser (its importer call is
not wrapped in a try block, so no raising importer is modelled here). -/
abbrev ImporterP : Type := Option (String → Option String)

/-- Flush of the p-branch buffer: the buffered children go through
_get_text_nodes_with_decorations under a synthetic style-less p. -/
def pFlush (spacing : Option Int) (align : Option String)
    (lineH : Option String) (padT : Option String) (buffer : List HNode) :
    List PNode :=
  let tns := getTextNodesP [] (HForest.ofList buffer)
  if !tns.isEmpty then
    [PNode.paragraphP tns
      ⟨some (match align with | some a => a | none => "JUSTIFY"),
       lineH, spacing, padT⟩]
  else []

mutual
/-- _convert_html_element_to_ricos_nodes: one block-level element to its
list of ricos_parser nodes. -/
def convertElementP (imp : ImporterP) (spacing : Option Int) : HNode → List PNode
  | .text _ => []
  | .tag nm attrs cs =>
    let styles := get_inline_styles attrs
    let lineH := dictGet styles "line-height"
    let padT := dictGet styles "padding-top"
    let align := get_text_alignment attrs
    if nm == "p" then
      pLoop imp spacing align lineH padT cs []
    else if nm == "h1" || nm == "h2" || nm == "h3" || nm == "h4" ||
        nm == "h5" || nm == "h6" then
      let lvl : Nat :=
        if nm == "h1" then 1 else if nm == "h2" then 2
        else if nm == "h3" then 3 else if nm == "h4" then 4
        else if nm == "h5" then 5 else 6
      let tns := getTextNodesP styles cs
      if !tns.isEmpty then
        [PNode.headingP lvl tns
          ⟨some (match align with | some a => a | none => "JUSTIFY"),
           lineH, spacing, padT⟩]
      else []
    else if nm == "b" || nm == "strong" then
      let tns := (getTextNodesP styles cs).map
        (fun t =>
          if t.decorations.contains PDeco.bold then t
          else ⟨t.text, t.decorations ++ [PDeco.bold]⟩)
      if !tns.isEmpty then
        [PNode.paragraphP tns ⟨some "JUSTIFY", none, none, none⟩]
      else []
    else if nm == "em" || nm == "i" then
      let tns := (getTextNodesP styles cs).map
        (fun t =>
          if t.decorations.contains PDeco.italic then t
          else ⟨t.text, t.decorations ++ [PDeco.italic]⟩)
      if !tns.isEmpty then
        [PNode.paragraphP tns ⟨some "JUSTIFY", none, none, none⟩]
      else []
    else if nm == "img" then
      match attrGet attrs "src", imp with
      | some src, some f =>
        if src != "" then
          match f src with
          | some mid =>
            [PNode.imageP mid
              (match attrGet attrs "alt" with | some a => a | none => "")
              ((attrGet attrs "width").bind pyIntParse)
              ((attrGet attrs "height").bind pyIntParse)]
          | none => []
        else []
      | _, _ => []
    else if nm == "ul" || nm == "ol" then
      let items := ulLoop imp spacing lineH padT cs
      if !items.isEmpty then
        [(if nm == "ol" then PNode.orderedP else PNode.bulletedP)
          (PNodes.ofList items)]
      else []
    else if nm == "blockquote" then
      let bqs := bqLoop imp spacing cs
      if !bqs.isEmpty then [PNode.blockquoteP (PNodes.ofList bqs)] else []
    else if nm == "br" then [PNode.lineBreakP]
    else if nm == "figure" then
      figLoop imp spacing padT cs
    else if nm == "figcaption" then
      let tns := getTextNodesP styles cs
      if !tns.isEmpty then
        [PNode.paragraphP tns ⟨some "CENTER", none, spacing, padT⟩]
      else []
    else
      -- table, tbody, tr, td, caption and every unhandled tag alike
      -- become an HTML passthrough node
      [PNode.htmlP (serializeN (.tag nm attrs cs))]

/-- Child loop of the p branch: buffer inline children, flush the buffer at
each br into a paragraph and emit a LINE_BREAK node. -/
def pLoop (imp : ImporterP) (spacing : Option Int) (align : Option String)
    (lineH : Option String) (padT : Option String) :
    HForest → List HNode → List PNode
  | .nil, buffer => pFlush spacing align lineH padT buffer
  | .cons c rest, buffer =>
    match c with
    | .tag "br" _ _ =>
      pFlush spacing align lineH padT buffer ++ [PNode.lineBreakP] ++
      pLoop imp spacing align lineH padT rest []
    | other => pLoop imp spacing align lineH padT rest (buffer ++ [other])

/-- Items of the ul and ol branch: each direct li child becomes a
LIST_ITEM holding a paragraph of its text nodes followed by its directly
nested lists. -/
def ulLoop (imp : ImporterP) (spacing : Option Int) (lineH : Option String)
    (padT : Option String) : HForest → List PNode
  | .nil => []
  | .cons c rest =>
    (match c with
     | .tag "li" liattrs lics =>
       let pcn := getTextNodesP (get_inline_styles liattrs) lics
       let para : List PNode :=
         if !pcn.isEmpty then
           [PNode.paragraphP pcn
             ⟨some (match get_text_alignment liattrs with
                    | some a => a | none => "JUSTIFY"),
              lineH, spacing, padT⟩]
         else []
       let li_nodes := para ++ liNested imp spacing lics
       if !li_nodes.isEmpty then [PNode.listItemP (PNodes.ofList li_nodes)]
       else []
     | _ => []) ++ ulLoop imp spacing lineH padT rest

/-- li.find_all for ul and ol with recursive=False, each converted
recursively. -/
def liNested (imp : ImporterP) (spacing : Option Int) : HForest → List PNode
  | .nil => []
  | .cons c rest =>
    (match c with
     | .tag nm a ccs =>
       if nm == "ul" || nm == "ol" then
         convertElementP imp spacing (.tag nm a ccs)
       else []
     | .text _ => []) ++ liNested imp spacing rest

/-- Child loop of the blockquote branch. -/
def bqLoop (imp : ImporterP) (spacing : Option Int) : HForest → List PNode
  | .nil => []
  | .cons c rest =>
    (match c with
     | .text s =>
       if pyStrip s != "" then
         [PNode.paragraphP [⟨pyStrip s, []⟩] ⟨none, none, none, none⟩]
       else []
     | .tag nm a ccs =>
       if nm == "p" then convertElementP imp spacing (.tag nm a ccs)
       else
         let tc := getTextStrip "" ccs
         if tc != "" then
           [PNode.paragraphP [⟨tc, []⟩] ⟨none, none, none, none⟩]
         else []) ++ bqLoop imp spacing rest

/-- Child loop of the figure branch: img children are converted, a
figcaption becomes a centered paragraph. -/
def figLoop (imp : ImporterP) (spacing : Option Int) (padT : Option String) :
    HForest → List PNode
  | .nil => []
  | .cons c rest =>
    (match c with
     | .tag "img" a ccs => convertElementP imp spacing (.tag "img" a ccs)
     | .tag "figcaption" a ccs =>
       let tns := getTextNodesP (get_inline_styles a) ccs
       if !tns.isEmpty then
         [PNode.paragraphP tns ⟨some "CENTER", none, spacing, padT⟩]
       else []
     | _ => []) ++ figLoop imp spacing padT rest
end

/-- The block-tag set of the top-level grouping loop of
convert_html_to_ricos. -/
def BLOCK_TAGS : List String :=
  ["p", "h1", "h2", "h3", "h4", "h5", "h6", "ul", "ol", "blockquote",
   "img", "br", "table", "div", "hr", "pre", "b", "strong", "i", "em",
   "figure", "figcaption"]

/-- Flush of the top-level inline buffer: a JUSTIFY paragraph with the
optional paddingBottom spacing. -/
def flushBufferP (spacing : Option Int) (buffer : List HNode) : List PNode :=
  let tns := getTextNodesP [] (HForest.ofList buffer)
  if !tns.isEmpty then
    [PNode.paragraphP tns ⟨some "JUSTIFY", none, spacing, none⟩]
  else []

/-- Top-level child loop of convert_html_to_ricos: strings and non-block
tags are buffered, block tags flush the buffer and are converted. -/
def convertTopP (imp : ImporterP) (spacing : Option Int) :
    HForest → List HNode → List PNode
  | .nil, buffer => flushBufferP spacing buffer
  | .cons c rest, buffer =>
    match c with
    | .text s => convertTopP imp spacing rest (buffer ++ [.text s])
    | .tag nm a ccs =>
      if BLOCK_TAGS.contains nm then
        flushBufferP spacing buffer ++ convertElementP imp spacing (.tag nm a ccs) ++
        convertTopP imp spacing rest []
      else convertTopP imp spacing rest (buffer ++ [.tag nm a ccs])

/-- Document of the ricos_parser converter. -/
structure PDoc where
  nodes : List PNode

/-- convert_html_to_ricos from ricos_parser.py, embedded from the parsed
DOM onwards (the empty-html early return and the caption-shortcode rewrite
happen at string level; none models an empty or blank input). -/
def convert_html_to_ricos (html : Option HForest) (imp : ImporterP)
    (spacing : Option Int) : PDoc :=
  match html with
  | none => ⟨[]⟩
  | some dom => ⟨convertTopP imp spacing dom []⟩

/-! ### Character occurrence and provenance

To state that script and style content leaves no textual trace in the
output, occurrence of a character is defined over the input DOM (all of it,
and the part outside script and style subtrees) and over the output
document, and the conversion is shown to introduce no character beyond the
ones outside script and style subtrees, the fixed literals of the
converter, and importer-returned media ids. -/

/-- Character occurrence in an attribute list (keys and values). -/
def attrsHave (c : Char) (attrs : List (String × String)) : Bool :=
  attrs.any (fun kv => strHas c kv.1 || strHas c kv.2)

mutual
/-- Character occurrence anywhere in a node: its text, tag name,
attributes or subtree. -/
def domHasN (c : Char) : HNode → Bool
  | .text s => strHas c s
  | .tag nm attrs cs => strHas c nm || attrsHave c attrs || domHasF c cs

/-- Character occurrence anywhere in a forest. -/
def domHasF (c : Char) : HForest → Bool
  | .nil => false
  | .cons n t => domHasN c n || domHasF c t
end

mutual
/-- Character occurrence outside script and style subtrees: a script or
style tag hides its name, attributes and whole subtree. -/
def outsideScriptsN (c : Char) : HNode → Bool
  | .text s => strHas c s
  | .tag nm attrs cs =>
    if nm == "script" || nm == "style" then false
    else strHas c nm || attrsHave c attrs || outsideScriptsF c cs

/-- Character occurrence outside script and style subtrees of a forest. -/
def outsideScriptsF (c : Char) : HForest → Bool
  | .nil => false
  | .cons n t => outsideScriptsN c n || outsideScriptsF c t
end

/-- Character occurrence in a decoration (its type string or link url). -/
def decoHas (c : Char) (d : RDeco) : Bool :=
  strHas c d.type ||
  (match d.url with | some u => strHas c u | none => false)

mutual
/-- Character occurrence anywhere in an output node: run texts and
decorations, media ids and captions, raw markup payloads, table cells. -/
def nodeHas (c : Char) : RNode → Bool
  | .text s ds => strHas c s || ds.any (decoHas c)
  | .paragraph ns => nodesHas c ns
  | .headingN _ ns => nodesHas c ns
  | .blockquoteN ns => nodesHas c ns
  | .dividerN => false
  | .codeBlockN ns => nodesHas c ns
  | .bulleted ns => nodesHas c ns
  | .ordered ns => nodesHas c ns
  | .listItemN ns => nodesHas c ns
  | .imageN mid cap =>
    strHas c mid || (match cap with | some s => strHas c s | none => false)
  | .htmlN h => strHas c h
  | .tableN rows _ => rows.any (fun r => r.any (strHas c))

/-- Character occurrence in an output node sequence. -/
def nodesHas (c : Char) : RNodes → Bool
  | .nil => false
  | .cons n t => nodeHas c n || nodesHas c t
end

/-- The literal strings convert_html_to_ricos_local can inject into its
output beyond input-derived text: decoration type names, the newline run
of br, separator spaces, the image placeholder skeleton together with the
default alt word, the iframe prefix, the markup punctuation of the
serializer, and the entity references its minimal formatter substitutes. -/
def injectedStrings : List String :=
  ["BOLD", "ITALIC", "UNDERLINE", "STRIKETHROUGH", "CODE", "LINK",
   "\n", " ", "[Imagem: ", "] ", "imagem", "[Embed] ", "<", ">", "/", "=", "\"",
   "&amp;", "&lt;", "&gt;"]

/-- Characters of the injected literals. -/
def injectedChar (c : Char) : Bool := injectedStrings.any (strHas c)

/-- A media id returned by the importer never carries the character. -/
def ImporterClean (imp : Importer) (c : Char) : Prop :=
  ∀ f s r, imp = some f → f s = ImpResult.val (some r) → strHas c r = false

/-- Cleanliness of an active decoration list. -/
def activeClean (c : Char) (active : List RDeco) : Bool :=
  !(active.any (decoHas c))

/-! ### Base character lemmas -/

theorem chHas_append (c : Char) (a b : List Char) :
    chHas c (a ++ b) = (chHas c a || chHas c b) := by
  induction a with
  | nil => simp [chHas]
  | cons d t ih => simp [chHas, ih, Bool.or_assoc]

theorem strHas_append (c : Char) (s t : String) :
    strHas c (s ++ t) = (strHas c s || strHas c t) := by
  cases s with
  | mk a =>
    cases t with
    | mk b => exact chHas_append c a b

theorem chHas_dropWhile (c : Char) (p : Char → Bool) (l : List Char)
    (h : chHas c l = false) : chHas c (l.dropWhile p) = false := by
  induction l with
  | nil => simpa using h
  | cons d t ih =>
    simp [chHas] at h
    by_cases hp : p d
    · simpa [List.dropWhile, hp] using ih h.2
    · simpa [List.dropWhile, hp, chHas] using h

theorem chHas_reverse (c : Char) (l : List Char) :
    chHas c l.reverse = chHas c l := by
  induction l with
  | nil => rfl
  | cons d t ih =>
    rw [List.reverse_cons, chHas_append, ih]
    simp only [chHas]
    rw [Bool.or_false, Bool.or_comm]

theorem pyStripList_clean (c : Char) (l : List Char)
    (h : chHas c l = false) : chHas c (pyStripList l) = false := by
  unfold pyStripList
  rw [chHas_reverse]
  apply chHas_dropWhile
  rw [chHas_reverse]
  exact chHas_dropWhile c _ _ h

theorem pyStrip_clean (c : Char) (s : String)
    (h : strHas c s = false) : strHas c (pyStrip s) = false :=
  pyStripList_clean c s.data h

theorem chHas_map_norm (c : Char) (l : List Char) (h : chHas c l = false)
    (hs : (c == ' ') = false) :
    chHas c (l.map (fun d => if d == '\xa0' then ' ' else d)) = false := by
  induction l with
  | nil => rfl
  | cons d t ih =>
    simp only [List.map_cons, chHas, Bool.or_eq_false_iff] at h ⊢
    refine ⟨?_, ih h.2⟩
    by_cases hd : d == '\xa0'
    · simpa [hd] using hs
    · simpa [hd] using h.1

theorem normalize_clean (c : Char) (s : String)
    (h : strHas c s = false) (hs : (c == ' ') = false) :
    strHas c (normalize_ws s) = false :=
  chHas_map_norm c s.data h hs

theorem injected_one (c : Char) (h : injectedChar c = false) {s : String}
    (hs : s ∈ injectedStrings) : strHas c s = false := by
  by_contra hc
  have ht : injectedChar c = true := by
    unfold injectedChar
    rw [List.any_eq_true]
    exact ⟨s, hs, by simpa using hc⟩
  simp [ht] at h

theorem attrGet_clean (c : Char) (attrs : List (String × String))
    (k v : String) (h : attrsHave c attrs = false)
    (hget : attrGet attrs k = some v) : strHas c v = false := by
  induction attrs with
  | nil => simp [attrGet] at hget
  | cons kv rest ih =>
    obtain ⟨k0, v0⟩ := kv
    simp [attrsHave, List.any_cons] at h
    obtain ⟨⟨_, hv0⟩, hrest⟩ := h
    unfold attrGet at hget
    by_cases hk : (k0 == k) = true
    · simp [hk] at hget
      subst hget
      simpa using hv0
    · simp [hk] at hget
      exact ih (by simp [attrsHave]; exact hrest) hget

mutual
theorem collectStringsF_clean (c : Char) :
    (cs : HForest) → domHasF c cs = false →
    ∀ s ∈ collectStringsF cs, strHas c s = false
  | .nil, _ => by
    intro s hs
    simp [collectStringsF] at hs
  | .cons n t, h => by
    intro s hs
    simp only [domHasF, Bool.or_eq_false_iff] at h
    simp only [collectStringsF, List.mem_append] at hs
    rcases hs with hs | hs
    · exact collectStringsN_clean c n h.1 s hs
    · exact collectStringsF_clean c t h.2 s hs

theorem collectStringsN_clean (c : Char) :
    (n : HNode) → domHasN c n = false →
    ∀ s ∈ collectStringsN n, strHas c s = false
  | .text str, h => by
    intro s hs
    simp only [collectStringsN, List.mem_singleton] at hs
    subst hs
    simpa [domHasN] using h
  | .tag nm attrs cs, h => by
    intro s hs
    simp only [domHasN, Bool.or_eq_false_iff] at h
    simp only [collectStringsN] at hs
    exact collectStringsF_clean c cs h.2 s hs
end

theorem escChar_clean (c d : Char) (hd : (c == d) = false)
    (hinj : injectedChar c = false) : chHas c (escChar d) = false := by
  have hamp := injected_one c hinj (s := "&amp;") (by simp [injectedStrings])
  have hlt := injected_one c hinj (s := "&lt;") (by simp [injectedStrings])
  have hgt := injected_one c hinj (s := "&gt;") (by simp [injectedStrings])
  unfold escChar
  by_cases h1 : (d == '&') = true
  · simpa [h1] using hamp
  · by_cases h2 : (d == '<') = true
    · simpa [h1, h2] using hlt
    · by_cases h3 : (d == '>') = true
      · simpa [h1, h2, h3] using hgt
      · simp [h1, h2, h3, chHas, hd]

theorem escList_clean (c : Char) (l : List Char) (h : chHas c l = false)
    (hinj : injectedChar c = false) : chHas c (escList l) = false := by
  induction l with
  | nil => rfl
  | cons d t ih =>
    simp only [chHas, Bool.or_eq_false_iff] at h
    simp only [escList, chHas_append]
    simp [escChar_clean c d h.1 hinj, ih h.2]

theorem pyEscape_clean (c : Char) (s : String) (h : strHas c s = false)
    (hinj : injectedChar c = false) : strHas c (pyEscape s) = false :=
  escList_clean c s.data h hinj

theorem serializeAttrs_clean (c : Char) (attrs : List (String × String))
    (hattrs : attrsHave c attrs = false) (hinj : injectedChar c = false) :
    strHas c (serializeAttrs attrs) = false := by
  induction attrs with
  | nil => rfl
  | cons kv rest ih =>
    obtain ⟨k, v⟩ := kv
    simp [attrsHave, List.any_cons] at hattrs
    obtain ⟨⟨hk, hv⟩, hrest⟩ := hattrs
    have hsp := injected_one c hinj (s := " ") (by simp [injectedStrings])
    have heq := injected_one c hinj (s := "=") (by simp [injectedStrings])
    have hqu := injected_one c hinj (s := "\"") (by simp [injectedStrings])
    simp only [serializeAttrs, strHas_append]
    have hk2 : strHas c k = false := by simpa using hk
    have hv2 : strHas c (pyEscape v) = false :=
      pyEscape_clean c v (by simpa using hv) hinj
    have heqq : strHas c "=\"" = false := by
      simp [strHas, chHas] at heq hqu ⊢
      exact ⟨heq, hqu⟩
    have hrest2 : strHas c (serializeAttrs rest) = false :=
      ih (by simp [attrsHave]; exact hrest)
    simp [hsp, heqq, hk2, hv2, hrest2, hqu]

mutual
theorem serializeN_clean (c : Char) :
    (n : HNode) → domHasN c n = false → injectedChar c = false →
    strHas c (serializeN n) = false
  | .text s, h, hinj => by
    simp only [serializeN]
    exact pyEscape_clean c s (by simpa [domHasN] using h) hinj
  | .tag nm attrs cs, h, hinj => by
    simp only [domHasN, Bool.or_eq_false_iff] at h
    obtain ⟨⟨hnm, hattrs⟩, hcs⟩ := h
    have hlt := injected_one c hinj (s := "<") (by simp [injectedStrings])
    have hgt := injected_one c hinj (s := ">") (by simp [injectedStrings])
    have hsl := injected_one c hinj (s := "/") (by simp [injectedStrings])
    have ha := serializeAttrs_clean c attrs hattrs hinj
    have hf := serializeF_clean c cs hcs hinj
    have hsl2 : strHas c "/>" = false := by
      simp [strHas, chHas] at hsl hgt ⊢
      exact ⟨hsl, hgt⟩
    have hcl : strHas c "</" = false := by
      simp [strHas, chHas] at hlt hsl ⊢
      exact ⟨hlt, hsl⟩
    by_cases hv : nm ∈ voidTags
    · simp [serializeN, hv, strHas_append, hlt, ha, hsl2, hnm]
    · simp [serializeN, hv, strHas_append, hlt, hgt, ha, hf, hnm, hcl]

theorem serializeF_clean (c : Char) :
    (cs : HForest) → domHasF c cs = false → injectedChar c = false →
    strHas c (serializeF cs) = false
  | .nil, _, _ => rfl
  | .cons n t, h, hinj => by
    simp only [domHasF, Bool.or_eq_false_iff] at h
    simp only [serializeF, strHas_append]
    simp [serializeN_clean c n h.1 hinj, serializeF_clean c t h.2 hinj]
end

mutual
theorem findTagF_clean (c : Char) (names : List String) :
    (cs : HForest) → domHasF c cs = false →
    ∀ n, findTagF names cs = some n → domHasN c n = false
  | .nil, _ => by intro n hn; simp [findTagF] at hn
  | .cons m t, h => by
    intro n hn
    simp only [domHasF, Bool.or_eq_false_iff] at h
    unfold findTagF at hn
    cases hm : findTagN names m with
    | some r =>
      rw [hm] at hn
      simp at hn
      subst hn
      exact findTagN_clean c names m h.1 r hm
    | none =>
      rw [hm] at hn
      exact findTagF_clean c names t h.2 n hn

theorem findTagN_clean (c : Char) (names : List String) :
    (m : HNode) → domHasN c m = false →
    ∀ n, findTagN names m = some n → domHasN c n = false
  | .text s, h => by intro n hn; simp [findTagN] at hn
  | .tag nm attrs cs, h => by
    intro n hn
    unfold findTagN at hn
    by_cases hc : nm ∈ names
    · rw [if_pos (by simpa using hc)] at hn
      injection hn with hn
      subst hn
      exact h
    · rw [if_neg (by simpa using hc)] at hn
      have h2 : domHasF c cs = false := by
        simp only [domHasN, Bool.or_eq_false_iff] at h
        exact h.2
      exact findTagF_clean c names cs h2 n hn
end

mutual
theorem stripScriptsF_clean (c : Char) :
    (cs : HForest) → outsideScriptsF c cs = false →
    domHasF c (stripScriptsF cs) = false
  | .nil, _ => rfl
  | .cons n t, h => by
    simp only [outsideScriptsF, Bool.or_eq_false_iff] at h
    unfold stripScriptsF
    cases hn : stripScriptsN n with
    | some n2 =>
      simp only [domHasF, Bool.or_eq_false_iff]
      exact ⟨stripScriptsN_clean c n h.1 n2 hn, stripScriptsF_clean c t h.2⟩
    | none => exact stripScriptsF_clean c t h.2

theorem stripScriptsN_clean (c : Char) :
    (n : HNode) → outsideScriptsN c n = false →
    ∀ n2, stripScriptsN n = some n2 → domHasN c n2 = false
  | .text s, h => by
    intro n2 hn
    simp [stripScriptsN] at hn
    subst hn
    simpa [domHasN, outsideScriptsN] using h
  | .tag nm attrs cs, h => by
    intro n2 hn
    unfold stripScriptsN at hn
    by_cases hs : (nm == "script" || nm == "style") = true
    · rw [if_pos hs] at hn
      exact absurd hn (by simp)
    · rw [if_neg hs] at hn
      injection hn with hn
      subst hn
      simp only [outsideScriptsN] at h
      rw [if_neg hs] at h
      simp only [Bool.or_eq_false_iff] at h
      simp only [domHasN, Bool.or_eq_false_iff]
      exact ⟨h.1, stripScriptsF_clean c cs h.2⟩
end

theorem space_neq (c : Char) (hinj : injectedChar c = false) :
    (c == ' ') = false := by
  have h := injected_one c hinj (s := " ") (by simp [injectedStrings])
  simpa [strHas, chHas] using h

theorem activeAppend_clean (c : Char) (active : List RDeco) (d : RDeco)
    (ha : active.any (decoHas c) = false) (hd : decoHas c d = false) :
    (active ++ [d]).any (decoHas c) = false := by
  simp [List.any_append, List.any_cons, ha, hd]

theorem extendActive_clean (c : Char) (active : List RDeco) (name : String)
    (attrs : List (String × String)) (ha : activeClean c active = true)
    (hattrs : attrsHave c attrs = false) (hinj : injectedChar c = false) :
    activeClean c (extendActive active name attrs) = true := by
  have hb := injected_one c hinj (s := "BOLD") (by simp [injectedStrings])
  have hit := injected_one c hinj (s := "ITALIC") (by simp [injectedStrings])
  have hu := injected_one c hinj (s := "UNDERLINE") (by simp [injectedStrings])
  have hst := injected_one c hinj (s := "STRIKETHROUGH") (by simp [injectedStrings])
  have hco := injected_one c hinj (s := "CODE") (by simp [injectedStrings])
  have hli := injected_one c hinj (s := "LINK") (by simp [injectedStrings])
  simp only [activeClean, Bool.not_eq_true'] at ha ⊢
  unfold extendActive
  split_ifs with h1 h2 h3 h4 h5 h6
  · exact activeAppend_clean c active _ ha (by simp [decoHas, deco, hb])
  · exact activeAppend_clean c active _ ha (by simp [decoHas, deco, hit])
  · exact activeAppend_clean c active _ ha (by simp [decoHas, deco, hu])
  · exact activeAppend_clean c active _ ha (by simp [decoHas, deco, hst])
  · exact activeAppend_clean c active _ ha (by simp [decoHas, deco, hco])
  · cases hg : attrGet attrs "href" with
    | some href =>
      show (if (href != "") = true then active ++ [deco "LINK" (some href)]
            else active).any (decoHas c) = false
      by_cases hh : (href != "") = true
      · rw [if_pos hh]
        exact activeAppend_clean c active _ ha
          (by simp [decoHas, deco, hli, attrGet_clean c attrs "href" href hattrs hg])
      · rw [if_neg hh]
        exact ha
    | none => exact ha
  · exact ha

theorem flush_text_clean (c : Char) (active : List RDeco) (s : String)
    (ha : activeClean c active = true) (hs : strHas c s = false)
    (hinj : injectedChar c = false) :
    ∀ n ∈ flush_text active s, nodeHas c n = false := by
  intro n hn
  unfold flush_text at hn
  by_cases hp : (pyStrip (normalize_ws s) != "") = true
  · simp only [hp, if_pos, List.mem_singleton] at hn
    subst hn
    simp only [text_node, nodeHas, Bool.or_eq_false_iff]
    refine ⟨normalize_clean c s hs (space_neq c hinj), ?_⟩
    simpa [activeClean] using ha
  · rw [if_neg (by simpa using hp)] at hn
    simp at hn

theorem imgAlt_clean (c : Char) (attrs : List (String × String))
    (hattrs : attrsHave c attrs = false) (hinj : injectedChar c = false) :
    strHas c (imgAlt attrs) = false := by
  have him := injected_one c hinj (s := "imagem") (by simp [injectedStrings])
  unfold imgAlt
  cases hg : attrGet attrs "alt" with
  | some a =>
    by_cases he : (a == "") = true
    · simp [he, him]
    · simp only [he, Bool.false_eq_true, if_false]
      exact attrGet_clean c attrs "alt" a hattrs hg
  | none => simpa using him

theorem imgSrc_clean (c : Char) (attrs : List (String × String))
    (hattrs : attrsHave c attrs = false) :
    strHas c (imgSrc attrs) = false := by
  unfold imgSrc
  cases hg : attrGet attrs "src" with
  | some s => exact attrGet_clean c attrs "src" s hattrs hg
  | none => rfl

theorem placeholder_clean (c : Char) (attrs : List (String × String))
    (hattrs : attrsHave c attrs = false) (hinj : injectedChar c = false) :
    strHas c (pyStrip ("[Imagem: " ++ imgAlt attrs ++ "] " ++ imgSrc attrs)) = false := by
  apply pyStrip_clean
  have h1 := injected_one c hinj (s := "[Imagem: ") (by simp [injectedStrings])
  have h2 := injected_one c hinj (s := "] ") (by simp [injectedStrings])
  simp [strHas_append, h1, h2, imgAlt_clean c attrs hattrs hinj,
    imgSrc_clean c attrs hattrs]

theorem image_node_clean (c : Char) (mid : String) (cap : Option String)
    (hmid : strHas c mid = false)
    (hcap : ∀ s, cap = some s → strHas c s = false) :
    nodeHas c (image_node_wix_media mid cap) = false := by
  unfold image_node_wix_media
  cases cap with
  | none => simp [nodeHas, hmid]
  | some s =>
    by_cases he : (s == "") = true
    · simp [he, nodeHas, hmid]
    · simp only [he, Bool.false_eq_true, if_false]
      simp [nodeHas, hmid, hcap s rfl]

theorem imgPlaceholder_clean (c : Char) (attrs : List (String × String))
    (active : List RDeco) (hattrs : attrsHave c attrs = false)
    (ha : activeClean c active = true) (hinj : injectedChar c = false) :
    ∀ n ∈ imgPlaceholder attrs active, nodeHas c n = false :=
  flush_text_clean c active _ ha (placeholder_clean c attrs hattrs hinj) hinj

section StructuralClean

attribute [local irreducible] pyStrip pyStripList normalize_ws flush_text
  imgAlt imgSrc imgPlaceholder getTextSep getTextStrip pyJoin
  serializeAttrs serializeN serializeF extendActive pyLower

theorem imgBranch_clean (c : Char) (imp : Importer)
    (attrs : List (String × String)) (active : List RDeco)
    (hattrs : attrsHave c attrs = false) (ha : activeClean c active = true)
    (hi : ImporterClean imp c) (hinj : injectedChar c = false) :
    (∀ n ∈ (imgBranch attrs active imp).1, nodeHas c n = false) ∧
    (∀ n ∈ (imgBranch attrs active imp).2, nodeHas c n = false) := by
  have hph := imgPlaceholder_clean c attrs active hattrs ha hinj
  cases himp : imp with
  | none =>
    exact ⟨hph, fun n hn => absurd hn (List.not_mem_nil n)⟩
  | some f =>
    simp only [imgBranch]
    by_cases hsrc : (imgSrc attrs != "") = true
    · rw [if_pos hsrc]
      cases hf : f (imgSrc attrs) with
      | raises =>
        exact ⟨hph, fun n hn => absurd hn (List.not_mem_nil n)⟩
      | val r =>
        cases r with
        | none =>
          exact ⟨hph, fun n hn => absurd hn (List.not_mem_nil n)⟩
        | some mid =>
          have hval : strHas c mid = false := hi f (imgSrc attrs) mid himp hf
          refine ⟨fun n hn => absurd hn (List.not_mem_nil n), ?_⟩
          intro n hn
          rcases List.mem_singleton.mp hn with rfl
          exact image_node_clean c mid (some (imgAlt attrs)) hval
            (fun s hs => by
              injection hs with hs
              subst hs
              exact imgAlt_clean c attrs hattrs hinj)
    · rw [if_neg (by simpa using hsrc)]
      exact ⟨hph, fun n hn => absurd hn (List.not_mem_nil n)⟩

mutual
theorem build_inline_clean (c : Char) (imp : Importer) :
    (cs : HForest) → (active : List RDeco) →
    domHasF c cs = false → activeClean c active = true →
    ImporterClean imp c → injectedChar c = false →
    (∀ n ∈ (build_inline_from_nodes imp cs active).1, nodeHas c n = false) ∧
    (∀ n ∈ (build_inline_from_nodes imp cs active).2, nodeHas c n = false)
  | .nil, active, _, _, _, _ => by
    constructor <;> (intro n hn; simp [build_inline_from_nodes] at hn)
  | .cons ch rest, active, h, ha, hi, hinj => by
    simp only [domHasF, Bool.or_eq_false_iff] at h
    have hc := build_inline_child_clean c imp ch active h.1 ha hi hinj
    have hr := build_inline_clean c imp rest active h.2 ha hi hinj
    constructor
    · intro n hn
      simp only [build_inline_from_nodes, List.mem_append] at hn
      rcases hn with hn | hn
      · exact hc.1 n hn
      · exact hr.1 n hn
    · intro n hn
      simp only [build_inline_from_nodes, List.mem_append] at hn
      rcases hn with hn | hn
      · exact hc.2 n hn
      · exact hr.2 n hn

theorem build_inline_child_clean (c : Char) (imp : Importer) :
    (ch : HNode) → (active : List RDeco) →
    domHasN c ch = false → activeClean c active = true →
    ImporterClean imp c → injectedChar c = false →
    (∀ n ∈ (build_inline_child imp ch active).1, nodeHas c n = false) ∧
    (∀ n ∈ (build_inline_child imp ch active).2, nodeHas c n = false)
  | .text s, active, h, ha, hi, hinj => by
    constructor
    · intro n hn
      simp only [build_inline_child] at hn
      exact flush_text_clean c active s ha (by simpa [domHasN] using h) hinj n hn
    · intro n hn
      simp [build_inline_child] at hn
  | .tag nm0 attrs cs, active, h, ha, hi, hinj => by
    simp only [domHasN, Bool.or_eq_false_iff] at h
    obtain ⟨⟨hnm, hattrs⟩, hcs⟩ := h
    have hnl := injected_one c hinj (s := "\n") (by simp [injectedStrings])
    by_cases hbr : (pyLower nm0 == "br") = true
    · have heq : build_inline_child imp (.tag nm0 attrs cs) active =
          ([text_node "\n" active], []) := by
        simp only [build_inline_child]
        rw [if_pos hbr]
      rw [heq]
      constructor
      · intro n hn
        simp only [List.mem_singleton] at hn
        subst hn
        simp only [text_node, nodeHas, Bool.or_eq_false_iff]
        exact ⟨hnl, by simpa [activeClean] using ha⟩
      · intro n hn
        simp at hn
    · by_cases himg : (pyLower nm0 == "img") = true
      · have heq : build_inline_child imp (.tag nm0 attrs cs) active =
            imgBranch attrs active imp := by
          simp only [build_inline_child]
          rw [if_neg (by simpa using hbr), if_pos himg]
        rw [heq]
        exact imgBranch_clean c imp attrs active hattrs ha hi hinj
      · have heq : build_inline_child imp (.tag nm0 attrs cs) active =
            build_inline_from_nodes imp cs
              (extendActive active (pyLower nm0) attrs) := by
          simp only [build_inline_child]
          rw [if_neg (by simpa using hbr), if_neg (by simpa using himg)]
        rw [heq]
        exact build_inline_clean c imp cs _ hcs
          (extendActive_clean c active (pyLower nm0) attrs ha hattrs hinj) hi hinj
end


end StructuralClean

/-! ### Store invariants: the inline builder never writes the callers cell -/

theorem alloc_len (st : DecoStore) (v : List RDeco) :
    (st.alloc v).1.cells.length = st.cells.length + 1 := by
  simp [DecoStore.alloc]

theorem alloc_addr (st : DecoStore) (v : List RDeco) :
    (st.alloc v).2 = st.cells.length := rfl

theorem alloc_get (st : DecoStore) (v : List RDeco) (i : Nat)
    (h : i < st.cells.length) :
    (st.alloc v).1.cells.get? i = st.cells.get? i := by
  simp only [DecoStore.alloc, List.get?_eq_getElem?]
  exact List.getElem?_append_left h

theorem appendAt_len (st : DecoStore) (a : Nat) (d : RDeco) :
    (st.appendAt a d).cells.length = st.cells.length := by
  simp [DecoStore.appendAt]

theorem appendAt_get (st : DecoStore) (a : Nat) (d : RDeco) (i : Nat)
    (h : i ≠ a) :
    (st.appendAt a d).cells.get? i = st.cells.get? i := by
  simp only [DecoStore.appendAt, List.get?_eq_getElem?]
  exact List.getElem?_set_ne (Ne.symm h)

theorem extendActiveStore_len (st : DecoStore) (na : Nat) (name : String)
    (attrs : List (String × String)) :
    (extendActiveStore st na name attrs).cells.length = st.cells.length := by
  unfold extendActiveStore
  split_ifs with h1 h2 h3 h4 h5 h6
  · exact appendAt_len st na _
  · exact appendAt_len st na _
  · exact appendAt_len st na _
  · exact appendAt_len st na _
  · exact appendAt_len st na _
  · cases hg : attrGet attrs "href" with
    | some href =>
      show (if (href != "") = true then st.appendAt na (deco "LINK" (some href))
            else st).cells.length = st.cells.length
      by_cases hh : (href != "") = true
      · rw [if_pos hh]; exact appendAt_len st na _
      · rw [if_neg hh]
    | none => rfl
  · rfl

theorem extendActiveStore_get (st : DecoStore) (na : Nat) (name : String)
    (attrs : List (String × String)) (i : Nat) (h : i ≠ na) :
    (extendActiveStore st na name attrs).cells.get? i = st.cells.get? i := by
  unfold extendActiveStore
  split_ifs with h1 h2 h3 h4 h5 h6
  · exact appendAt_get st na _ i h
  · exact appendAt_get st na _ i h
  · exact appendAt_get st na _ i h
  · exact appendAt_get st na _ i h
  · exact appendAt_get st na _ i h
  · cases hg : attrGet attrs "href" with
    | some href =>
      show (if (href != "") = true then st.appendAt na (deco "LINK" (some href))
            else st).cells.get? i = st.cells.get? i
      by_cases hh : (href != "") = true
      · rw [if_pos hh]; exact appendAt_get st na _ i h
      · rw [if_neg hh]
    | none => rfl
  · rfl

theorem imgBranchStore_fst (attrs : List (String × String)) (st2 : DecoStore)
    (a : Nat) (imp : Importer) : (imgBranchStore attrs st2 a imp).1 = st2 := by
  cases imp with
  | none => rfl
  | some f =>
    simp only [imgBranchStore]
    by_cases hsrc : (imgSrc attrs != "") = true
    · rw [if_pos hsrc]
      cases hm : (match f (imgSrc attrs) with
                  | ImpResult.raises => none
                  | ImpResult.val r => r) with
      | none => rfl
      | some mid => rfl
    · rw [if_neg hsrc]

mutual
theorem buildInlineStoreF_inv (imp : Importer) :
    (cs : HForest) → (a : Nat) → (st : DecoStore) →
    st.cells.length ≤ (buildInlineStoreF imp cs a st).1.cells.length ∧
    ∀ i, i < st.cells.length →
      (buildInlineStoreF imp cs a st).1.cells.get? i = st.cells.get? i
  | .nil, a, st => by
    constructor
    · exact Nat.le_refl _
    · intro i _
      rfl
  | .cons c rest, a, st => by
    have h1 := buildInlineStoreN_inv imp c a st
    have h2 := buildInlineStoreF_inv imp rest a (buildInlineStoreN imp c a st).1
    constructor
    · show st.cells.length ≤
        (buildInlineStoreF imp rest a (buildInlineStoreN imp c a st).1).1.cells.length
      exact Nat.le_trans h1.1 h2.1
    · intro i hi
      show (buildInlineStoreF imp rest a (buildInlineStoreN imp c a st).1).1.cells.get? i =
        st.cells.get? i
      rw [h2.2 i (Nat.lt_of_lt_of_le hi h1.1), h1.2 i hi]

theorem buildInlineStoreN_inv (imp : Importer) :
    (ch : HNode) → (a : Nat) → (st : DecoStore) →
    st.cells.length ≤ (buildInlineStoreN imp ch a st).1.cells.length ∧
    ∀ i, i < st.cells.length →
      (buildInlineStoreN imp ch a st).1.cells.get? i = st.cells.get? i
  | .text s, a, st => by
    exact ⟨Nat.le_refl _, fun i _ => rfl⟩
  | .tag nm0 attrs cs, a, st => by
    by_cases hbr : (pyLower nm0 == "br") = true
    · have he : buildInlineStoreN imp (.tag nm0 attrs cs) a st =
          (st, [text_node "\n" (st.read a)], []) := by
        simp only [buildInlineStoreN]
        rw [if_pos hbr]
      rw [he]
      exact ⟨Nat.le_refl _, fun i _ => rfl⟩
    · have hle : st.cells.length ≤
          (extendActiveStore (st.alloc (st.read a)).1 (st.alloc (st.read a)).2
            (pyLower nm0) attrs).cells.length := by
        rw [extendActiveStore_len, alloc_len]
        exact Nat.le_succ _
      have hget : ∀ i, i < st.cells.length →
          (extendActiveStore (st.alloc (st.read a)).1 (st.alloc (st.read a)).2
            (pyLower nm0) attrs).cells.get? i = st.cells.get? i := by
        intro i hi
        rw [extendActiveStore_get _ _ _ _ i
          (by rw [alloc_addr]; exact Nat.ne_of_lt hi)]
        exact alloc_get st _ i hi
      by_cases himg : (pyLower nm0 == "img") = true
      · have he : buildInlineStoreN imp (.tag nm0 attrs cs) a st =
            imgBranchStore attrs
              (extendActiveStore (st.alloc (st.read a)).1 (st.alloc (st.read a)).2
                (pyLower nm0) attrs) a imp := by
          simp only [buildInlineStoreN]
          rw [if_neg (by simpa using hbr), if_pos himg]
        rw [he, imgBranchStore_fst]
        exact ⟨hle, hget⟩
      · have he : buildInlineStoreN imp (.tag nm0 attrs cs) a st =
            buildInlineStoreF imp cs (st.alloc (st.read a)).2
              (extendActiveStore (st.alloc (st.read a)).1 (st.alloc (st.read a)).2
                (pyLower nm0) attrs) := by
          simp only [buildInlineStoreN]
          rw [if_neg (by simpa using hbr), if_neg (by simpa using himg)]
        rw [he]
        have hrec := buildInlineStoreF_inv imp cs (st.alloc (st.read a)).2
          (extendActiveStore (st.alloc (st.read a)).1 (st.alloc (st.read a)).2
            (pyLower nm0) attrs)
        constructor
        · exact Nat.le_trans hle hrec.1
        · intro i hi
          rw [hrec.2 i (Nat.lt_of_lt_of_le hi hle), hget i hi]
end

/-! ### Retry-loop, validator-map and placeholder-shape support lemmas -/

theorem remoteAttempts_allError (remote : Nat → RemoteOutcome)
    (h : ∀ k, remote k = RemoteOutcome.transportError) :
    ∀ b k, remoteAttempts remote k b = none := by
  intro b
  induction b with
  | zero => intro k; rfl
  | succ b ih =>
    intro k
    simp [remoteAttempts, h k, ih (k + 1)]

theorem mapNodes_ofList (f : RNode → RNode) (l : List RNode) :
    mapNodes f (RNodes.ofList l) = RNodes.ofList (l.map f) := by
  induction l with
  | nil => rfl
  | cons n t ih => simp [RNodes.ofList, mapNodes, ih]

theorem toList_ofList (l : List RNode) : (RNodes.ofList l).toList = l := by
  induction l with
  | nil => rfl
  | cons n t ih => simp [RNodes.ofList, RNodes.toList, ih]

theorem dropWhile_cons_false (p : Char → Bool) (a : Char) (t : List Char)
    (h : p a = false) : (a :: t).dropWhile p = a :: t := by
  simp [List.dropWhile, h]

theorem pyStripList_noop (l : List Char)
    (hhead : ∃ a t, l = a :: t ∧ pySpace a = false)
    (hlast : ∃ a t, l.reverse = a :: t ∧ pySpace a = false) :
    pyStripList l = l := by
  obtain ⟨a, t, he, ha⟩ := hhead
  obtain ⟨b, u, hr, hb⟩ := hlast
  unfold pyStripList
  rw [he, dropWhile_cons_false _ _ _ ha, ← he, hr,
    dropWhile_cons_false _ _ _ hb, ← hr, List.reverse_reverse]

theorem normalize_noop (s : String)
    (h : ∀ ch ∈ s.data, (ch == '\xa0') = false) : normalize_ws s = s := by
  cases s with
  | mk l =>
    unfold normalize_ws
    congr 1
    induction l with
    | nil => rfl
    | cons a t ih =>
      simp only [List.map_cons]
      rw [ih (fun ch hch => h ch (by simp [hch]))]
      simp [h a (by simp)]

theorem isPrefixOf_append_self (n s : List Char) :
    n.isPrefixOf (n ++ s) = true := by
  induction n with
  | nil => simp [List.isPrefixOf]
  | cons a t ih => simp [List.isPrefixOf, ih]

theorem subList_self_append (n s : List Char) : subList n (n ++ s) = true := by
  cases n with
  | nil =>
    cases s with
    | nil => rfl
    | cons c t => simp [subList, List.isPrefixOf]
  | cons a t =>
    have hp : (a :: t).isPrefixOf ((a :: t) ++ s) = true :=
      isPrefixOf_append_self (a :: t) s
    simp only [List.cons_append, subList]
    have hp2 : (a :: t).isPrefixOf (a :: t.append s) = true := hp
    simp [hp2]

theorem subList_of_parts (n p s : List Char) :
    subList n (p ++ n ++ s) = true := by
  induction p with
  | nil => simpa using subList_self_append n s
  | cons a p2 ih =>
    simp only [List.cons_append, subList]
    rw [Bool.or_eq_true]
    right
    simpa [List.append_assoc] using ih

theorem pySpace_ne_nbsp (ch : Char) (h : pySpace ch = false) :
    (ch == '\xa0') = false := by
  by_contra hc
  simp only [Bool.not_eq_false, beq_iff_eq] at hc
  subst hc
  simp [pySpace] at h

theorem c5_general (X A : String) (mode : String) (imp : Importer)
    (hX : X ≠ "") (hA : A ≠ "")
    (hXs : ∀ ch ∈ X.data, pySpace ch = false)
    (hAs : ∀ ch ∈ A.data, (ch == '\xa0') = false)
    (himp : imp = none ∨
      ∀ f, imp = some f → f X = ImpResult.raises ∨ f X = ImpResult.val none) :
    ∃ t : String,
      (convert_html_to_ricos_local
        (some (HForest.ofList [HNode.tag "p" []
          (HForest.ofList [HNode.tag "img" [("src", X), ("alt", A)] HForest.nil])]))
        imp mode) =
        ⟨RNodes.ofList [paragraph [text_node t []]]⟩ ∧
      strContains X t = true ∧ strContains A t = true := by
  refine ⟨"[Imagem: " ++ A ++ "] " ++ X, ?_, ?_, ?_⟩
  · have hA2 : (A == "") = false := by simpa using hA
    have halt : imgAlt [("src", X), ("alt", A)] = A := by
      unfold imgAlt
      show (if (A == "") = true then "imagem" else A) = A
      rw [hA2]
      simp
    have hsrcx : imgSrc [("src", X), ("alt", A)] = X := rfl
    have hXd : X.data ≠ [] := by
      intro hc
      apply hX
      cases X with
      | mk l =>
        simp only at hc
        subst hc
        rfl
    have hPdata : ("[Imagem: " ++ A ++ "] " ++ X).data =
        '[' :: ("Imagem: ".data ++ A.data ++ "] ".data ++ X.data) := by
      show (("[Imagem: ".data ++ A.data) ++ "] ".data) ++ X.data = _
      simp [List.append_assoc]
    have hhead : ∃ a t, ("[Imagem: " ++ A ++ "] " ++ X).data = a :: t ∧
        pySpace a = false :=
      ⟨'[', _, hPdata, by decide⟩
    have hlast : ∃ a t, ("[Imagem: " ++ A ++ "] " ++ X).data.reverse = a :: t ∧
        pySpace a = false := by
      cases hrx : X.data.reverse with
      | nil => exact absurd (by simpa using hrx) hXd
      | cons b u =>
        have hbmem : b ∈ X.data := by
          rw [← List.mem_reverse, hrx]
          simp
        refine ⟨b, u ++ ("[Imagem: " ++ A ++ "] ").data.reverse, ?_,
          hXs b hbmem⟩
        have hsplit : ("[Imagem: " ++ A ++ "] " ++ X).data =
            ("[Imagem: " ++ A ++ "] ").data ++ X.data := rfl
        rw [hsplit, List.reverse_append, hrx]
        simp
    have hstrip : pyStrip ("[Imagem: " ++ A ++ "] " ++ X) =
        "[Imagem: " ++ A ++ "] " ++ X := by
      show (⟨pyStripList ("[Imagem: " ++ A ++ "] " ++ X).data⟩ : String) = _
      rw [pyStripList_noop _ hhead hlast]
    have hnorm : normalize_ws ("[Imagem: " ++ A ++ "] " ++ X) =
        "[Imagem: " ++ A ++ "] " ++ X := by
      apply normalize_noop
      intro ch hch
      rw [hPdata] at hch
      rcases List.mem_cons.mp hch with rfl | hch
      · decide
      · rcases List.mem_append.mp hch with hch | hch
        · rcases List.mem_append.mp hch with hch | hch
          · rcases List.mem_append.mp hch with hch | hch
            · exact (by decide :
                ∀ x ∈ "Imagem: ".data, (x == '\xa0') = false) ch hch
            · exact hAs ch hch
          · exact (by decide :
              ∀ x ∈ "] ".data, (x == '\xa0') = false) ch hch
        · exact pySpace_ne_nbsp ch (hXs ch hch)
    have hne : (("[Imagem: " ++ A ++ "] " ++ X) != "") = true := by
      rw [bne_iff_ne]
      intro hc
      have hd := congrArg String.data hc
      rw [hPdata] at hd
      simp at hd
    have hflush : flush_text []
        (pyStrip ("[Imagem: " ++ A ++ "] " ++ X)) =
        [text_node ("[Imagem: " ++ A ++ "] " ++ X) []] := by
      unfold flush_text
      show (if (pyStrip (normalize_ws (pyStrip ("[Imagem: " ++ A ++ "] " ++ X))) != "") = true
            then [text_node (normalize_ws (pyStrip ("[Imagem: " ++ A ++ "] " ++ X))) []]
            else []) = _
      rw [hstrip, hnorm, hstrip, if_pos hne]
    have hplace : imgPlaceholder [("src", X), ("alt", A)] [] =
        [text_node ("[Imagem: " ++ A ++ "] " ++ X) []] := by
      unfold imgPlaceholder
      rw [halt, hsrcx]
      exact hflush
    have himgb : imgBranch [("src", X), ("alt", A)] [] imp =
        ([text_node ("[Imagem: " ++ A ++ "] " ++ X) []], []) := by
      have hnone : imgBranch [("src", X), ("alt", A)] [] none =
          ([text_node ("[Imagem: " ++ A ++ "] " ++ X) []], []) := by
        simp only [imgBranch, hplace]
      rcases himp with rfl | himp
      · exact hnone
      · cases himp2 : imp with
        | none => exact hnone
        | some f =>
          simp only [imgBranch]
          rw [hsrcx, if_pos (by simpa using hX)]
          rcases himp f himp2 with hf | hf
          · rw [hf]
            show (imgPlaceholder [("src", X), ("alt", A)] [],
              ([] : List RNode)) = _
            rw [hplace]
          · rw [hf]
            show (imgPlaceholder [("src", X), ("alt", A)] [],
              ([] : List RNode)) = _
            rw [hplace]
    have hchild : build_inline_child imp
        (.tag "img" [("src", X), ("alt", A)] HForest.nil) [] =
        ([text_node ("[Imagem: " ++ A ++ "] " ++ X) []], []) := by
      simp only [build_inline_child]
      rw [if_neg (by decide), if_pos (by decide)]
      exact himgb
    have hbuild : build_inline_from_nodes imp
        (HForest.cons (HNode.tag "img" [("src", X), ("alt", A)] HForest.nil)
          HForest.nil) [] =
        ([text_node ("[Imagem: " ++ A ++ "] " ++ X) []], []) := by
      simp only [build_inline_from_nodes, hchild]
      simp
    have hhb : handle_block imp mode
        (.tag "p" []
          (HForest.cons (HNode.tag "img" [("src", X), ("alt", A)] HForest.nil)
            HForest.nil)) =
        [paragraph [text_node ("[Imagem: " ++ A ++ "] " ++ X) []]] := by
      simp only [handle_block]
      rw [if_pos (by decide), hbuild]
      simp
    have htop : convertChildren imp mode
        (HForest.ofList [HNode.tag "p" []
          (HForest.ofList [HNode.tag "img" [("src", X), ("alt", A)] HForest.nil])]) [] =
        [paragraph [text_node ("[Imagem: " ++ A ++ "] " ++ X) []]] := by
      simp only [HForest.ofList, convertChildren]
      rw [if_neg (by decide), hhb]
      simp [flush_inline_run, convertChildren]
    show validate_ricos (doc (convertChildren imp mode
      (stripScriptsF (HForest.ofList [HNode.tag "p" []
        (HForest.ofList [HNode.tag "img" [("src", X), ("alt", A)] HForest.nil])])) [])) =
      ⟨RNodes.ofList [paragraph [text_node ("[Imagem: " ++ A ++ "] " ++ X) []]]⟩
    have hstripdom : stripScriptsF (HForest.ofList [HNode.tag "p" []
        (HForest.ofList [HNode.tag "img" [("src", X), ("alt", A)] HForest.nil])]) =
        HForest.ofList [HNode.tag "p" []
          (HForest.ofList [HNode.tag "img" [("src", X), ("alt", A)] HForest.nil])] := rfl
    rw [hstripdom, htop]
    rfl
  · unfold strContains
    have h1 := subList_of_parts X.data
      (("[Imagem: ".data ++ A.data) ++ "] ".data) []
    rw [List.append_nil] at h1
    have h2 : ("[Imagem: " ++ A ++ "] " ++ X).data =
        (("[Imagem: ".data ++ A.data) ++ "] ".data) ++ X.data := rfl
    rw [h2]
    exact h1
  · unfold strContains
    have h1 := subList_of_parts A.data "[Imagem: ".data
      ("] ".data ++ X.data)
    have h2 : ("[Imagem: " ++ A ++ "] " ++ X).data =
        ("[Imagem: ".data ++ A.data) ++ ("] ".data ++ X.data) := by
      show (("[Imagem: ".data ++ A.data) ++ "] ".data) ++ X.data = _
      rw [List.append_assoc]
    rw [h2]
    exact h1

/-! ### The claims -/

/-- C1: for every input (any parsed DOM, the empty string parsing to the
empty forest, and a None argument) and any importer behavior including a
raising one, convert_html_to_ricos_local returns a document whose nodes
key holds a possibly empty node list and never raises; empty or None html
yields the empty document. -/
theorem claim_C1_total_conversion :
    ∀ (html : Option HForest) (imp : Importer) (mode : String),
      (∃ ns : RNodes, convert_html_to_ricos_local html imp mode = ⟨ns⟩) ∧
      ((html = none ∨ html = some HForest.nil) →
        convert_html_to_ricos_local html imp mode = ⟨RNodes.nil⟩) := by
  intro html imp mode
  constructor
  · exact ⟨(convert_html_to_ricos_local html imp mode).nodes, rfl⟩
  · rintro (rfl | rfl) <;> rfl

/-- C1 witness: the None input produces the empty document. -/
theorem claim_C1_total_conversion_witness :
    convert_html_to_ricos_local none none "html" = ⟨RNodes.nil⟩ :=
  (claim_C1_total_conversion none none "html").2 (Or.inl rfl)

/-- C2: evaluation of the code at the failing input.  The input
span(a) whitespace span(b) yields TWO paragraphs, not the single coalesced
paragraph the claim (and the repository test
test_top_level_inline_siblings_coalesce_into_one_paragraph) requires; a
blank-line boundary also yields two, as the claim states. -/
theorem claim_C2_code_eval :
    (convert_html_to_ricos_local
      (some (HForest.ofList [HNode.tag "span" [] (HForest.ofList [HNode.text "a"]),
        HNode.text " ",
        HNode.tag "span" [] (HForest.ofList [HNode.text "b"])])) none "html") =
      ⟨RNodes.ofList [paragraph [text_node "a" []], paragraph [text_node "b" []]]⟩ ∧
    (convert_html_to_ricos_local
      (some (HForest.ofList [HNode.tag "span" [] (HForest.ofList [HNode.text "a"]),
        HNode.text "\n\n",
        HNode.tag "span" [] (HForest.ofList [HNode.text "b"])])) none "html") =
      ⟨RNodes.ofList [paragraph [text_node "a" []], paragraph [text_node "b" []]]⟩ ∧
    (RNodes.ofList [paragraph [text_node "a" []],
      paragraph [text_node "b" []]]).toList.length = 2 :=
  ⟨rfl, rfl, rfl⟩

/-- C3 counterexample: converting strong(b(x)) produces a run whose
decoration list holds BOLD twice, so applying the same decoration twice is
not idempotent and does produce two entries, contrary to the claim. -/
theorem claim_C3_counterexample :
    (convert_html_to_ricos_local
      (some (HForest.ofList [HNode.tag "strong" []
        (HForest.ofList [HNode.tag "b" [] (HForest.ofList [HNode.text "x"])])]))
      none "html") =
      ⟨RNodes.ofList [paragraph
        [text_node "x" [deco "BOLD" none, deco "BOLD" none]]]⟩ ∧
    [deco "BOLD" none, deco "BOLD" none] ≠ [deco "BOLD" none] :=
  ⟨rfl, by decide⟩

/-- C3 amended: descending into nested bold tags appends one BOLD entry
per tag with no duplicate check, whatever the ambient active set: the
inline builder on strong(b(x)) returns a single run decorated with the
active set extended by BOLD twice. -/
theorem claim_C3_duplicate_decorations :
    ∀ (active : List RDeco) (imp : Importer),
      build_inline_from_nodes imp
        (HForest.ofList [HNode.tag "strong" []
          (HForest.ofList [HNode.tag "b" [] (HForest.ofList [HNode.text "x"])])])
        active =
      ([text_node "x" (active ++ [deco "BOLD" none, deco "BOLD" none])], []) := by
  intro active imp
  have hext : ∀ (ac : List RDeco) (nm : String),
      (pyLower nm == "strong" || pyLower nm == "b") = true →
      extendActive ac (pyLower nm) [] = ac ++ [deco "BOLD" none] := by
    intro ac nm h
    unfold extendActive
    rw [if_pos h]
  have hfl : ∀ ac : List RDeco, flush_text ac "x" = [text_node "x" ac] := by
    intro ac
    unfold flush_text
    show (if (pyStrip (normalize_ws "x") != "") = true
          then [text_node (normalize_ws "x") ac] else []) = _
    rw [if_pos (by decide)]
    rfl
  simp only [HForest.ofList, build_inline_from_nodes, build_inline_child]
  rw [if_neg (by decide), if_neg (by decide),
    hext active "strong" (by decide)]
  rw [if_neg (by decide), if_neg (by decide),
    hext (active ++ [deco "BOLD" none]) "b" (by decide)]
  simp [hfl, List.append_assoc]

/-- C4: the exported converter convert_html_to_ricos preserves nested
lists: ul(li(a, ul(li(b)))) becomes one BulletedList whose single ListItem
holds both a paragraph containing the text a and a nested BulletedList.
The sibling local converter flattens instead; this claim holds of the
ricos_parser implementation its sources cite. -/
theorem claim_C4_nested_list_preserved :
    ∃ itemNodes : PNodes,
      (convert_html_to_ricos
        (some (HForest.ofList [HNode.tag "ul" []
          (HForest.ofList [HNode.tag "li" []
            (HForest.ofList [HNode.text "a",
              HNode.tag "ul" [] (HForest.ofList [HNode.tag "li" []
                (HForest.ofList [HNode.text "b"])])])])]))
        none none).nodes =
        [PNode.bulletedP (PNodes.cons (PNode.listItemP itemNodes) PNodes.nil)] ∧
      (∃ (runs : List PText) (style : PParaStyle),
        PNode.paragraphP runs style ∈ itemNodes.toList ∧
        (⟨"a", []⟩ : PText) ∈ runs) ∧
      (∃ items2 : PNodes, PNode.bulletedP items2 ∈ itemNodes.toList) := by
  refine ⟨PNodes.ofList
    [PNode.paragraphP [⟨"a", []⟩, ⟨"b", []⟩] ⟨some "JUSTIFY", none, none, none⟩,
     PNode.bulletedP (PNodes.ofList [PNode.listItemP (PNodes.ofList
       [PNode.paragraphP [⟨"b", []⟩] ⟨some "JUSTIFY", none, none, none⟩])])],
    rfl, ?_, ?_⟩
  · exact ⟨[⟨"a", []⟩, ⟨"b", []⟩], ⟨some "JUSTIFY", none, none, none⟩,
      List.Mem.head _, List.Mem.head _⟩
  · exact ⟨PNodes.ofList [PNode.listItemP (PNodes.ofList
      [PNode.paragraphP [⟨"b", []⟩] ⟨some "JUSTIFY", none, none, none⟩])],
      List.Mem.tail _ (List.Mem.head _)⟩

/-- C5: for an img with nonempty src X and alt A (urls carry no whitespace
and neither attribute carries a non-breaking space), when no resolver is
configured, or the resolver raises, or it returns no id, conversion
succeeds and the output holds a text run containing both X and A. -/
theorem claim_C5_image_information_preserved (X A : String) (mode : String)
    (imp : Importer) (hX : X ≠ "") (hA : A ≠ "")
    (hXs : ∀ ch ∈ X.data, pySpace ch = false)
    (hAs : ∀ ch ∈ A.data, (ch == '\xa0') = false)
    (himp : imp = none ∨
      ∀ f, imp = some f → f X = ImpResult.raises ∨ f X = ImpResult.val none) :
    ∃ t : String,
      (convert_html_to_ricos_local
        (some (HForest.ofList [HNode.tag "p" []
          (HForest.ofList [HNode.tag "img" [("src", X), ("alt", A)] HForest.nil])]))
        imp mode) =
        ⟨RNodes.ofList [paragraph [text_node t []]]⟩ ∧
      strContains X t = true ∧ strContains A t = true :=
  c5_general X A mode imp hX hA hXs hAs himp

/-- C5 witness at a concrete image with no importer. -/
theorem claim_C5_image_information_preserved_witness :
    ∃ t : String,
      (convert_html_to_ricos_local
        (some (HForest.ofList [HNode.tag "p" []
          (HForest.ofList [HNode.tag "img"
            [("src", "http://x/a.jpg"), ("alt", "Cap")] HForest.nil])]))
        none "html") =
        ⟨RNodes.ofList [paragraph [text_node t []]]⟩ ∧
      strContains "http://x/a.jpg" t = true ∧ strContains "Cap" t = true :=
  claim_C5_image_information_preserved "http://x/a.jpg" "Cap" "html" none
    (by decide) (by decide) (by decide) (by decide) (Or.inl rfl)

/-- C6: validate_ricos normalizes every out-of-range or non-integer
heading level to exactly 1 and leaves in-range levels 1..6 unchanged,
positionally for every node list. -/
theorem claim_C6_heading_level_clamp (l : List RNode) (i : Nat)
    (lvl : Option Int) (ns : RNodes)
    (h : l.get? i = some (RNode.headingN lvl ns)) :
    (validate_ricos (doc l)).nodes.toList.get? i =
      some (RNode.headingN
        (match lvl with
         | some v => if 1 ≤ v ∧ v ≤ 6 then some v else some 1
         | none => some 1) ns) := by
  simp only [validate_ricos, doc]
  rw [mapNodes_ofList, toList_ofList]
  rw [List.get?_eq_getElem?, List.getElem?_map]
  rw [List.get?_eq_getElem?] at h
  rw [h]
  cases lvl with
  | none => rfl
  | some v => rfl

/-- C6 witness: a synthetic level 9 heading is clamped to level 1, and an
in-range level 3 heading passes unchanged. -/
theorem claim_C6_heading_level_clamp_witness :
    (validate_ricos (doc [RNode.headingN (some 9) RNodes.nil,
      RNode.headingN (some 3) RNodes.nil])).nodes.toList.get? 0 =
      some (RNode.headingN (some 1) RNodes.nil) ∧
    (validate_ricos (doc [RNode.headingN (some 9) RNodes.nil,
      RNode.headingN (some 3) RNodes.nil])).nodes.toList.get? 1 =
      some (RNode.headingN (some 3) RNodes.nil) := by
  constructor
  · have h := claim_C6_heading_level_clamp
      [RNode.headingN (some 9) RNodes.nil, RNode.headingN (some 3) RNodes.nil]
      0 (some 9) RNodes.nil rfl
    simpa using h
  · have h := claim_C6_heading_level_clamp
      [RNode.headingN (some 9) RNodes.nil, RNode.headingN (some 3) RNodes.nil]
      1 (some 3) RNodes.nil rfl
    simpa using h

/-- C7 counterexample: a first row whose FIRST cell is a td but which
contains a th later still counts as a header row: the plugin mode emits
headerRows 1 while the spec rule (first cell is a th) gives 0, refuting
the exactly-when clause of the claim. -/
theorem claim_C7_counterexample :
    (convert_html_to_ricos_local
      (some (HForest.ofList [HNode.tag "table" [] (HForest.ofList
        [HNode.tag "tr" [] (HForest.ofList
          [HNode.tag "td" [] (HForest.ofList [HNode.text "A"]),
           HNode.tag "th" [] (HForest.ofList [HNode.text "H"])]),
         HNode.tag "tr" [] (HForest.ofList
          [HNode.tag "td" [] (HForest.ofList [HNode.text "B"])])])]))
      none "plugin") =
      ⟨RNodes.ofList [table_node_simple [["A", "H"], ["B"]] 1]⟩ ∧
    specFirstCellHeaderRows (HForest.ofList
      [HNode.tag "tr" [] (HForest.ofList
        [HNode.tag "td" [] (HForest.ofList [HNode.text "A"]),
         HNode.tag "th" [] (HForest.ofList [HNode.text "H"])]),
       HNode.tag "tr" [] (HForest.ofList
        [HNode.tag "td" [] (HForest.ofList [HNode.text "B"])])]) = 0 ∧
    (1 : Int) ≠ 0 :=
  ⟨rfl, rfl, by decide⟩

/-- C7 amended: on the table with a th-first header row, plugin mode
yields exactly one Table node with headerRows 1 and two rows, html mode
yields exactly one raw-markup node whose payload contains the table tag;
a row counts as a header row exactly when the first row CONTAINS a th
(not necessarily as its first cell), and the header-row count is always
0 or 1. -/
theorem claim_C7_table_modes :
    ((convert_html_to_ricos_local
      (some (HForest.ofList [HNode.tag "table" [] (HForest.ofList
        [HNode.tag "tr" [] (HForest.ofList
          [HNode.tag "th" [] (HForest.ofList [HNode.text "H"])]),
         HNode.tag "tr" [] (HForest.ofList
          [HNode.tag "td" [] (HForest.ofList [HNode.text "A"])])])]))
      none "plugin") =
      ⟨RNodes.ofList [table_node_simple [["H"], ["A"]] 1]⟩) ∧
    (∃ s : String,
      (convert_html_to_ricos_local
        (some (HForest.ofList [HNode.tag "table" [] (HForest.ofList
          [HNode.tag "tr" [] (HForest.ofList
            [HNode.tag "th" [] (HForest.ofList [HNode.text "H"])]),
           HNode.tag "tr" [] (HForest.ofList
            [HNode.tag "td" [] (HForest.ofList [HNode.text "A"])])])]))
        none "html") =
        ⟨RNodes.ofList [html_block s]⟩ ∧ strContains "<table" s = true) ∧
    (∀ cs : HForest, tableHeaderRows cs = 0 ∨ tableHeaderRows cs = 1) := by
  refine ⟨rfl,
    ⟨"<table><tr><th>H</th></tr><tr><td>A</td></tr></table>", rfl, by decide⟩,
    ?_⟩
  intro cs
  unfold tableHeaderRows
  cases findTagF ["tr"] cs with
  | none => exact Or.inl rfl
  | some n =>
    cases n with
    | text s => exact Or.inl rfl
    | tag nm attrs frcs =>
      by_cases h : (findTagF ["th"] frcs).isSome = true
      · right
        simp [h]
      · left
        simp [h]

/-- C8: the inline builder never mutates the callers active decoration
list: in the heap view, for every store, every child forest and every
live address, the cell at the callers address is unchanged after the
whole walk, so sibling branches never observe each other s decorations. -/
theorem claim_C8_active_set_not_mutated (imp : Importer) (children : HForest)
    (a : Nat) (st : DecoStore) (h : a < st.cells.length) :
    (buildInlineStoreF imp children a st).1.cells.get? a = st.cells.get? a :=
  (buildInlineStoreF_inv imp children a st).2 a h

/-- C8 witness: a concrete store with one bold cell survives a nested
inline walk untouched. -/
theorem claim_C8_active_set_not_mutated_witness :
    0 < (DecoStore.mk [[deco "BOLD" none]]).cells.length ∧
    (buildInlineStoreF none
      (HForest.ofList [HNode.tag "b" [] (HForest.ofList [HNode.text "x"])])
      0 (DecoStore.mk [[deco "BOLD" none]])).1.cells.get? 0 =
      (DecoStore.mk [[deco "BOLD" none]]).cells.get? 0 :=
  ⟨by decide,
   claim_C8_active_set_not_mutated none
     (HForest.ofList [HNode.tag "b" [] (HForest.ofList [HNode.text "x"])])
     0 (DecoStore.mk [[deco "BOLD" none]]) (by decide)⟩

/-- C9: with a remote collaborator stub that always raises a transport
error, the remote-first orchestrator returns exactly the local converter
result on the same input and never propagates the failure (modelled from
the spec; see remoteFirstConvert). -/
theorem claim_C9_remote_fallback (enabled : Bool)
    (remote : Nat → RemoteOutcome) (maxAttempts : Nat)
    (html : Option HForest) (imp : Importer) (mode : String)
    (h : ∀ k, remote k = RemoteOutcome.transportError) :
    remoteFirstConvert enabled remote maxAttempts html imp mode =
      convert_html_to_ricos_local html imp mode := by
  cases enabled with
  | false => rfl
  | true =>
    show (match remoteAttempts remote 0 maxAttempts with
          | some d => d
          | none => convert_html_to_ricos_local html imp mode) =
      convert_html_to_ricos_local html imp mode
    rw [remoteAttempts_allError remote h maxAttempts 0]

/-- C9 witness at a concrete always-failing stub. -/
theorem claim_C9_remote_fallback_witness :
    remoteFirstConvert true (fun _ => RemoteOutcome.transportError) 5
      (some (HForest.ofList [HNode.text "hello"])) none "html" =
      convert_html_to_ricos_local
        (some (HForest.ofList [HNode.text "hello"])) none "html" :=
  claim_C9_remote_fallback true (fun _ => RemoteOutcome.transportError) 5
    (some (HForest.ofList [HNode.text "hello"])) none "html" (fun _ => rfl)

